import Mathlib

/-!
Verification development for a request-forwarding gateway (a Bun/Hono reverse
proxy).  The TypeScript sources are shallowly embedded: strings are lists of
characters, JSON values are an inductive type (the outcome of the runtime
builtin JSON.parse is passed in as an input, since the builtin itself is
external to the repository), maps are association lists with the replace-or-
append update of JS objects and of Map.set, and Date.now readings are explicit
integer parameters.  Fractional token-bucket arithmetic uses rationals.
-/

namespace KeplerProxy

/-- Strings of the embedded program: lists of characters. -/
abbrev Str := List Char

/-- JS String.prototype.toLowerCase, character-wise. -/
def toLowerStr (s : Str) : Str := s.map Char.toLower

/-- JS String.prototype.toUpperCase, character-wise. -/
def toUpperStr (s : Str) : Str := s.map Char.toUpper

/-- Drop trailing whitespace. -/
def dropTrailingWs (s : Str) : Str := (s.reverse.dropWhile Char.isWhitespace).reverse

/-- JS String.prototype.trim: strip leading and trailing whitespace. -/
def trimStr (s : Str) : Str := dropTrailingWs (s.dropWhile Char.isWhitespace)

/-- Association-list lookup (JS object property read / Map.get). -/
def lookupAssoc {α : Type} : List (Str × α) → Str → Option α
  | [], _ => none
  | (k, v) :: rest, key => if k = key then some v else lookupAssoc rest key

/-- Association-list write with JS semantics: overwrite in place when the key
exists (keeping its position), append otherwise. -/
def setAssoc {α : Type} : List (Str × α) → Str → α → List (Str × α)
  | [], key, v => [(key, v)]
  | (k, w) :: rest, key, v =>
    if k = key then (key, v) :: rest else (k, w) :: setAssoc rest key v

/-! ## JSON values

The outcome of the JSON.parse builtin.  Object fields are kept in insertion
order; numeric payloads are outside the scope of the claims and carried as
integers. -/

inductive Json where
  | null : Json
  | bool : Bool → Json
  | num : Int → Json
  | str : Str → Json
  | arr : List Json → Json
  | obj : List (Str × Json) → Json

/-- A JSON object body: the field list of a parsed top-level object. -/
abbrev JObj := List (Str × Json)

/-- JS property read on a parsed object (absent gives undefined, here none). -/
def objGet (o : JObj) (k : Str) : Option Json := lookupAssoc o k

/-- JS property assignment: replace in place or append. -/
def objSet (o : JObj) (k : Str) (v : Json) : JObj := setAssoc o k v

/-- JS delete operator on an object property. -/
def objDelete (o : JObj) (k : Str) : JObj := o.filter (fun f => f.1 ≠ k)

/-- Object.prototype.hasOwnProperty. -/
def hasOwn (o : JObj) (k : Str) : Bool := (lookupAssoc o k).isSome

/-! ## Serialization (model of JSON.stringify) -/

def quoteChar : Char := Char.ofNat 34

def backslashChar : Char := Char.ofNat 92

def lbraceChar : Char := Char.ofNat 123

def rbraceChar : Char := Char.ofNat 125

def lbrackChar : Char := Char.ofNat 91

def rbrackChar : Char := Char.ofNat 93

def commaChar : Char := ','

def colonChar : Char := ':'

def slashChar : Char := '/'

def escapeJsonChar (c : Char) : Str :=
  if c = quoteChar then [backslashChar, quoteChar]
  else if c = backslashChar then [backslashChar, backslashChar]
  else [c]

def escapeJsonStr (s : Str) : Str := (s.map escapeJsonChar).flatten

def quoteJsonStr (s : Str) : Str := quoteChar :: escapeJsonStr s ++ [quoteChar]

def joinComma : List Str → Str
  | [] => []
  | [x] => x
  | x :: rest => x ++ commaChar :: joinComma rest

mutual

def Json.stringify : Json → Str
  | Json.null => "null".toList
  | Json.bool true => "true".toList
  | Json.bool false => "false".toList
  | Json.num i => (toString i).toList
  | Json.str s => quoteJsonStr s
  | Json.arr xs => lbrackChar :: joinComma (stringifyList xs) ++ [rbrackChar]
  | Json.obj fs => lbraceChar :: joinComma (stringifyFields fs) ++ [rbraceChar]

def stringifyList : List Json → List Str
  | [] => []
  | x :: xs => Json.stringify x :: stringifyList xs

def stringifyFields : List (Str × Json) → List Str
  | [] => []
  | (k, v) :: fs => (quoteJsonStr k ++ colonChar :: Json.stringify v) :: stringifyFields fs

end

/-- Serialization of a top-level object body (JSON.stringify(parsed)). -/
def stringifyObj (o : JObj) : Str := Json.stringify (Json.obj o)

/-! ## Provider configuration (types.ts / config.ts) -/

structure ProviderModelConfig where
  modelAlias : Option Str
deriving Repr

structure ProviderConfig where
  routePfx : Str
  upstreamTemplate : Str
  defaultModel : Str
  models : List (Str × ProviderModelConfig)
  modelAliasLookup : List (Str × Str)
  disableStreaming : Bool
  stripRequestProperties : List Str
  tokenLimitPerMinute : Int

/-- The alias-lookup construction of mapProxyConfig (config.ts): for each model
entry, the trimmed non-empty alias, lowercased, maps to the trimmed model name,
unless it would map a name to itself. -/
def buildModelAliasLookup (models : List (Str × ProviderModelConfig)) : List (Str × Str) :=
  models.foldl
    (fun acc nm =>
      let name := trimStr nm.1
      if name = [] then acc
      else
        let aliasRaw := match nm.2.modelAlias with
          | some a => trimStr a
          | none => []
        if aliasRaw = [] then acc
        else
          let na := toLowerStr aliasRaw
          if na = [] ∨ na = toLowerStr name then acc
          else setAssoc acc na name)
    []

/-! ## Provider routing (index.ts: startsWithRoutePrefix / resolveProvider) -/

/-- index.ts startsWithRoutePrefix: the lowercased path starts with the
lowercased route prefix, and either has exactly its length or a slash right
after it. -/
def startsWithRoutePfx (pathname routePfx : Str) : Bool :=
  let np := toLowerStr pathname
  let nr := toLowerStr routePfx
  if ¬ (nr.isPrefixOf np) then false
  else if np.length = nr.length then true
  else decide (np.get? nr.length = some slashChar)

/-- The loop of index.ts resolveProvider: scan providers in order, skip empty
route prefixes and non-matching ones, keep the first strictly longer match. -/
def resolveLoop (pathname : Str) :
    List (Str × ProviderConfig) → Nat → Option (Str × ProviderConfig) →
    Option (Str × ProviderConfig)
  | [], _, acc => acc
  | (name, p) :: rest, longest, acc =>
    if p.routePfx = [] then resolveLoop pathname rest longest acc
    else if ¬ startsWithRoutePfx pathname p.routePfx then resolveLoop pathname rest longest acc
    else if longest < p.routePfx.length then
      resolveLoop pathname rest p.routePfx.length (some (name, p))
    else resolveLoop pathname rest longest acc

/-- index.ts resolveProvider. -/
def resolveProvider (providers : List (Str × ProviderConfig)) (pathname : Str) :
    Option (Str × ProviderConfig) :=
  resolveLoop pathname providers 0 none

/-- The matching condition exactly as the specification words it: the
lowercased path starts with the lowercased route prefix and is either exactly
that length or followed by a slash. -/
def specMatches (pathname : Str) (p : ProviderConfig) : Prop :=
  (toLowerStr p.routePfx).isPrefixOf (toLowerStr pathname) ∧
    ((toLowerStr pathname).length = (toLowerStr p.routePfx).length ∨
      (toLowerStr pathname).get? (toLowerStr p.routePfx).length = some slashChar)

instance (pathname : Str) (p : ProviderConfig) : Decidable (specMatches pathname p) := by
  unfold specMatches; infer_instance

/-- A provider the resolveProvider loop can select: non-empty route prefix and
a successful startsWithRoutePrefix test. -/
def goodFor (pathname : Str) (p : ProviderConfig) : Prop :=
  p.routePfx ≠ [] ∧ startsWithRoutePfx pathname p.routePfx = true

/-! ## Request-body transformation (index.ts: prepareRequestBody) -/

structure PreparedRequestBody where
  forwardBody : Str
  payloadForTokenCount : Option Str
  resolvedModel : Option Str
  bodyWasMutated : Bool

def modelKey : Str := "model".toList

def streamKey : Str := "stream".toList

def streamOptionsKey : Str := "stream_options".toList

/-- The path suffix that triggers streaming suppression. -/
def chatCompletionsSuffix : Str := "/chat/completions".toList

/-- The model the transformer resolves before aliasing: the trimmed string
model field when present and non-empty after trimming, else the provider
default (currentModel?.trim() || provider.defaultModel). -/
def baseModelOf (o : JObj) (p : ProviderConfig) : Str :=
  match objGet o modelKey with
  | some (Json.str s) => if trimStr s = [] then p.defaultModel else trimStr s
  | _ => p.defaultModel

/-- Model resolution including aliasing: when the base is truthy and its
lowercasing is a key of modelAliasLookup with a truthy target, the target. -/
def resolveModelFor (o : JObj) (p : ProviderConfig) : Str :=
  let base := baseModelOf o p
  if base = [] then base
  else
    match lookupAssoc p.modelAliasLookup (toLowerStr base) with
    | some t => if t = [] then base else t
    | none => base

/-- JS strict equality of a property value against a string
(parsed.model !== resolvedModel is its negation). -/
def jsEqStr (j : Option Json) (s : Str) : Bool :=
  match j with
  | some (Json.str t) => t = s
  | _ => false

/-- JS parsed.stream !== false. -/
def jsNeqFalse (j : Option Json) : Bool :=
  match j with
  | some (Json.bool false) => false
  | _ => true

/-- The strip loop of prepareRequestBody: delete every named own property,
skipping empty names; tracks the mutation flag. -/
def stripProps : JObj → List Str → Bool → JObj × Bool
  | o, [], u => (o, u)
  | o, s :: rest, u =>
    if s = [] then stripProps o rest u
    else if hasOwn o s then stripProps (objDelete o s) rest true
    else stripProps o rest u

/-- Step 2 of the transformer: set the model field when the resolved model is
truthy and strictly differs from the current field. -/
def modelStep (o : JObj) (p : ProviderConfig) : JObj × Bool :=
  if resolveModelFor o p ≠ [] ∧ ¬ (jsEqStr (objGet o modelKey) (resolveModelFor o p) = true) then
    (objSet o modelKey (Json.str (resolveModelFor o p)), true)
  else (o, false)

/-- Step 3 of the transformer: on /chat/completions with disableStreaming,
force stream=false unless already false and drop stream_options. -/
def streamStep (op : JObj × Bool) (p : ProviderConfig) (pathname : Str) : JObj × Bool :=
  if p.disableStreaming && chatCompletionsSuffix.isSuffixOf (toLowerStr pathname) then
    let a : JObj × Bool :=
      if jsNeqFalse (objGet op.1 streamKey) then (objSet op.1 streamKey (Json.bool false), true)
      else op
    if hasOwn a.1 streamOptionsKey then (objDelete a.1 streamOptionsKey, true) else a
  else op

/-- Steps 2-4 of the transformer on a parsed object body. -/
def transformSteps (o : JObj) (p : ProviderConfig) (pathname : Str) : JObj × Bool :=
  let s3 := streamStep (modelStep o p) p pathname
  stripProps s3.1 p.stripRequestProperties s3.2

/-- index.ts prepareRequestBody.  The raw body bytes, the content-type test,
and the outcome of safeParseJsonObject on the decoded text are inputs (the
JSON.parse builtin is external); everything else follows the source: model
resolution and aliasing, stream suppression on /chat/completions, property
stripping, and re-serialization only when something was mutated. -/
def prepareRequestBody (rawBody : Str) (ctJson : Bool) (parsedBody : Option JObj)
    (p : ProviderConfig) (pathname : Str) : PreparedRequestBody :=
  let defaultModelOpt : Option Str := if p.defaultModel = [] then none else some p.defaultModel
  if rawBody = [] then ⟨rawBody, none, defaultModelOpt, false⟩
  else if ¬ ctJson then ⟨rawBody, none, defaultModelOpt, false⟩
  else
    match parsedBody with
    | none => ⟨rawBody, none, defaultModelOpt, false⟩
    | some o =>
      let resolved := resolveModelFor o p
      let st := transformSteps o p pathname
      if ¬ st.2 then
        ⟨rawBody, some rawBody, (if resolved = [] then none else some resolved), false⟩
      else
        let payload := stringifyObj st.1
        ⟨payload, some payload, (if resolved = [] then none else some resolved), true⟩

/-! ## Token rate limiter (token-rate-limiter, the revision with the usage
window).  Date.now readings are explicit parameters; the fractional bucket
arithmetic of JS numbers is carried by rationals.  The console status line of
emitStatus is a peripheral side effect; its only effect on the bucket state,
the lazy prune of the usage window, is kept. -/

structure UsageSample where
  atUnixMs : Int
  tokens : Int
deriving Repr

structure Bucket where
  capacity : Int
  available : ℚ
  refillRatePerSecond : ℚ
  lastRefillUnixMs : Int
  usageWindow : List UsageSample
  usedInWindow : Int

def sumTokens (w : List UsageSample) : Int := (w.map UsageSample.tokens).sum

/-- refillBucket: continuous linear refill since the last refill timestamp,
capped at capacity; no-op when no time has elapsed. -/
def refillBucket (b : Bucket) (now : Int) : Bucket :=
  let elapsedMs := now - b.lastRefillUnixMs
  if elapsedMs ≤ 0 then b
  else
    { b with
      available := min (b.capacity : ℚ) (b.available + ((elapsedMs : ℚ) / 1000) * b.refillRatePerSecond)
      lastRefillUnixMs := now }

/-- The eviction loop of pruneUsageWindow: shift samples older than the cutoff
off the front, subtracting their tokens from the running sum. -/
def pruneLoop (cutoff : Int) : List UsageSample → Int → List UsageSample × Int
  | [], used => ([], used)
  | s :: rest, used =>
    if cutoff ≤ s.atUnixMs then (s :: rest, used)
    else pruneLoop cutoff rest (used - s.tokens)

/-- pruneUsageWindow: evict samples older than 60s, clamping the running sum
at zero. -/
def pruneUsageWindow (b : Bucket) (now : Int) : Bucket :=
  let pr := pruneLoop (now - 60000) b.usageWindow b.usedInWindow
  let u := if pr.2 < 0 then 0 else pr.2
  { b with usageWindow := pr.1, usedInWindow := u }

/-- recordUsage: ignore non-positive amounts, push a sample, add to the
running sum, then prune. -/
def recordUsage (b : Bucket) (now : Int) (tokens : Int) : Bucket :=
  if tokens ≤ 0 then b
  else
    pruneUsageWindow
      { b with
        usageWindow := b.usageWindow ++ [⟨now, tokens⟩]
        usedInWindow := b.usedInWindow + tokens }
      now

/-- getOrCreateBucket: reuse the keyed bucket or create a full one. -/
def getOrCreateBucket (buckets : List (Str × Bucket)) (key : Str)
    (limitPerMinute : Int) (now : Int) : Bucket × List (Str × Bucket) :=
  match lookupAssoc buckets key with
  | some b => (b, buckets)
  | none =>
    let b : Bucket :=
      ⟨limitPerMinute, (limitPerMinute : ℚ), (limitPerMinute : ℚ) / 60, now, [], 0⟩
    (b, setAssoc buckets key b)

/-- The waiting loop of waitForTokens.  Each iteration reads the clock (the
successive Date.now values are the clock list), refills, lets emitStatus prune
the window, and either deducts-and-records or computes the deficit delay and
sleeps.  Returns the final bucket and the list of sleep delays; none when the
supplied clock runs out before admission. -/
def waitLoop (tokens : Int) : List Int → Bucket → Option (Bucket × List Int)
  | [], _ => none
  | now :: rest, b0 =>
    let b := refillBucket b0 now
    let b := pruneUsageWindow b now
    if (tokens : ℚ) ≤ b.available then
      let b := { b with available := b.available - (tokens : ℚ) }
      let b := recordUsage b now tokens
      let b := pruneUsageWindow b now
      some (b, [])
    else
      let deficit := (tokens : ℚ) - b.available
      let delayMs : Int := max 10 ⌈(deficit / b.refillRatePerSecond) * 1000⌉
      match waitLoop tokens rest b with
      | none => none
      | some (b2, ds) => some (b2, delayMs :: ds)

/-- waitForTokens: immediate no-op when the limit is non-positive, the amount
is non-positive, or the amount exceeds the limit; otherwise run the bucket
loop under the lowercased key. -/
def waitForTokens (buckets : List (Str × Bucket)) (key : Str)
    (limitPerMinute tokens : Int) (createNow : Int) (clock : List Int) :
    Option (List (Str × Bucket) × List Int) :=
  if limitPerMinute ≤ 0 ∨ tokens ≤ 0 then some (buckets, [])
  else if limitPerMinute < tokens then some (buckets, [])
  else
    let nk := toLowerStr key
    let bb := getOrCreateBucket buckets nk limitPerMinute createNow
    match waitLoop tokens clock bb.1 with
    | none => none
    | some (b2, delays) => some (setAssoc bb.2 nk b2, delays)

/-- registerLimit: pre-create or resize a bucket without consuming tokens. -/
def registerLimit (buckets : List (Str × Bucket)) (key : Str)
    (limitPerMinute : Int) (now : Int) : List (Str × Bucket) :=
  if limitPerMinute ≤ 0 then buckets
  else
    let nk := toLowerStr key
    let bb := getOrCreateBucket buckets nk limitPerMinute now
    let b := bb.1
    let b :=
      if b.capacity ≠ limitPerMinute then
        { b with
          capacity := limitPerMinute
          refillRatePerSecond := (limitPerMinute : ℚ) / 60
          available := min b.available (limitPerMinute : ℚ) }
      else b
    let b := pruneUsageWindow b now
    setAssoc bb.2 nk b

structure TokenLimitSnapshot where
  used : Int
  available : Int
deriving Repr

/-- Modelled from the spec: the token-rate-limiter revision defining
getUsageSnapshot is not under src (only its caller in index.ts and an earlier
revision of the class are).  Per the spec, usageSnapshot prunes the 60-second
window and returns the aggregate usage and the remaining headroom of the
trailing window as non-negative integers; a key with no bucket reports zeros. -/
def getUsageSnapshot (buckets : List (Str × Bucket)) (key : Str) (now : Int) :
    List (Str × Bucket) × TokenLimitSnapshot :=
  let nk := toLowerStr key
  match lookupAssoc buckets nk with
  | none => (buckets, ⟨0, 0⟩)
  | some b0 =>
    let b := pruneUsageWindow b0 now
    let used := max 0 b.usedInWindow
    let avail := max 0 (b.capacity - used)
    (setAssoc buckets nk b, ⟨used, avail⟩)

/-! ## Token service (token-service.ts).  The fetch of the token endpoint is
external: its response (status ok flag, body text, JSON content-type flag, and
the outcome of the JSON.parse builtin on the body) is an input.  The per-key
lock serializes concurrent refreshes; in this sequential embedding its
acquire/release frame is the identity, and the double-checked cache read
appears as the same lookup done twice. -/

structure TokenCacheEntry where
  token : Str
  lastUpdatedUnixMs : Int
deriving Repr

structure TokenHttpResponse where
  ok : Bool
  body : Str
  contentTypeIncludesJson : Bool
  parsedJson : Option Json

/-- token-service.ts readStringProperty: a string-typed field with non-blank
content, returned untrimmed. -/
def readStringProperty (o : JObj) (k : Str) : Option Str :=
  match lookupAssoc o k with
  | some (Json.str s) => if trimStr s = [] then none else some s
  | _ => none

def tokenFieldKey : Str := "token".toList

def accessTokenSnakeKey : Str := "access_token".toList

def accessTokenCamelKey : Str := "accessToken".toList

/-- token-service.ts requestToken over the exchange response: blank endpoint,
non-success status, or blank body give none; a JSON body may yield one of the
three token fields, else the trimmed raw body is the token. -/
def requestToken (endpointTrimmed : Str) (resp : TokenHttpResponse) : Option Str :=
  if endpointTrimmed = [] then none
  else if ¬ resp.ok then none
  else if trimStr resp.body = [] then none
  else if resp.contentTypeIncludesJson then
    match resp.parsedJson with
    | some (Json.obj o) =>
      match readStringProperty o tokenFieldKey <|>
            readStringProperty o accessTokenSnakeKey <|>
            readStringProperty o accessTokenCamelKey with
      | some t => some t
      | none => some (trimStr resp.body)
    | _ => some (trimStr resp.body)
  else some (trimStr resp.body)

/-- The truthy cached token for a key: a cache entry with a non-empty token. -/
def cachedTokenOf (cache : List (Str × TokenCacheEntry)) (key : Str) : Option Str :=
  match lookupAssoc cache key with
  | some e => if e.token = [] then none else some e.token
  | none => none

/-- token-service.ts getToken: cache-first unless forced, double-checked under
the per-key lock, then the exchange; a failed exchange leaves the cache
untouched, a successful one overwrites the entry with a fresh timestamp. -/
def getToken (cache : List (Str × TokenCacheEntry)) (key : Str)
    (forceRefresh : Bool) (endpointTrimmed : Str) (resp : TokenHttpResponse)
    (now : Int) : Option Str × List (Str × TokenCacheEntry) :=
  if ¬ forceRefresh ∧ (cachedTokenOf cache key).isSome then (cachedTokenOf cache key, cache)
  else if ¬ forceRefresh ∧ (cachedTokenOf cache key).isSome then (cachedTokenOf cache key, cache)
  else
    match requestToken endpointTrimmed resp with
    | none => (none, cache)
    | some t => (some t, setAssoc cache key ⟨t, now⟩)

/-! ## Dispatch orchestration (index.ts app.all handler).  The fetch Headers
container lowercases names; header maps here hold lowercased names.  The URL
builtin (new URL / toString) is external and appears as two oracle functions;
the path helpers removePrefix, joinPath and normalizePath are from the
source. -/

def headersGet (hs : List (Str × Str)) (name : Str) : Option Str :=
  lookupAssoc hs (toLowerStr name)

def headersSet (hs : List (Str × Str)) (name value : Str) : List (Str × Str) :=
  (hs.filter (fun kv => kv.1 ≠ toLowerStr name)) ++ [(toLowerStr name, value)]

def headersDelete (hs : List (Str × Str)) (name : Str) : List (Str × Str) :=
  hs.filter (fun kv => kv.1 ≠ toLowerStr name)

def usedHeaderKey : Str := "x-token-limit-per-minute-used".toList

def availHeaderKey : Str := "x-token-limit-per-minute-available".toList

def authHeaderKey : Str := "authorization".toList

def hostHeaderKey : Str := "host".toList

def contentLengthKey : Str := "content-length".toList

def transferEncodingKey : Str := "transfer-encoding".toList

def intToStr (i : Int) : Str := (toString i).toList

def natToStr (n : Nat) : Str := (toString n).toList

/-- index.ts setTokenLimitHeaders: with a snapshot, set the two telemetry
headers; with none, leave the headers alone. -/
def setTokenLimitHeaders (hs : List (Str × Str)) (snap : Option TokenLimitSnapshot) :
    List (Str × Str) :=
  match snap with
  | none => hs
  | some s =>
    headersSet (headersSet hs usedHeaderKey (intToStr s.used)) availHeaderKey (intToStr s.available)

/-- index.ts withTokenLimitHeaders applied to the response header map. -/
def withTokenLimitHeadersH (responseHeaders : List (Str × Str))
    (snap : Option TokenLimitSnapshot) : List (Str × Str) :=
  match snap with
  | none => responseHeaders
  | some _ => setTokenLimitHeaders responseHeaders snap

/-- index.ts shouldIncludeBody. -/
def shouldIncludeBody (method : Str) (body : Str) : Bool :=
  let m := toUpperStr method
  if m = "GET".toList ∨ m = "HEAD".toList then false
  else decide (0 < body.length)

/-- index.ts removePrefix. -/
def removePfx (pathname pfx : Str) : Str :=
  if ¬ (toLowerStr pfx).isPrefixOf (toLowerStr pathname) then pathname
  else
    let trimmed := pathname.drop pfx.length
    if trimmed = [] then []
    else if trimmed.head? = some slashChar then trimmed
    else slashChar :: trimmed

/-- index.ts normalizePath. -/
def normalizePathStr (v : Str) : Str :=
  if v = [] then [slashChar]
  else if v.head? = some slashChar then v
  else slashChar :: v

/-- The replace of trailing slashes by nothing. -/
def dropTrailingSlashes (s : Str) : Str := (s.reverse.dropWhile (· = slashChar)).reverse

/-- The collapse of runs of slashes to one slash. -/
def collapseSlashes (s : Str) : Str :=
  s.foldr (fun c acc => if c = slashChar ∧ acc.head? = some slashChar then acc else c :: acc) []

/-- index.ts joinPath. -/
def joinPath (basePath suffixPath : Str) : Str :=
  if suffixPath = [] ∨ suffixPath = [slashChar] then normalizePathStr basePath
  else
    let nb := dropTrailingSlashes (normalizePathStr basePath)
    let ns := if suffixPath.head? = some slashChar then suffixPath else slashChar :: suffixPath
    collapseSlashes (nb ++ ns)

/-- The case-insensitive template pattern replaced by the model name. -/
def modelPattern : Str := "\x7bmodel\x7d".toList

/-- upstreamTemplate.replace(/\x7bmodel\x7d/gi, model). -/
def replaceModelTemplate (tmpl m : Str) : Str :=
  match tmpl with
  | [] => []
  | c :: rest =>
    if toLowerStr (List.take 7 (c :: rest)) = modelPattern then
      m ++ replaceModelTemplate (List.drop 6 rest) m
    else c :: replaceModelTemplate rest m
termination_by tmpl.length
decreasing_by
  · simp [List.length_drop]; omega
  · simp

/-- index.ts buildUpstreamUrl; the URL builtin enters through the two oracle
functions urlPathnameOf (pathname of the parsed destination) and urlRender
(re-serialization with the joined pathname and the original query). -/
def buildUpstreamUrl (urlPathnameOf : Str → Str) (urlRender : Str → Str → Str → Str)
    (destPfx incomingPathname routePfx2 search : Str) : Str :=
  let pathWithoutPfx := removePfx incomingPathname routePfx2
  urlRender destPfx (joinPath (urlPathnameOf destPfx) pathWithoutPfx) search

structure RequestModel where
  method : Str
  pathname : Str
  search : Str
  headers : List (Str × Str)
  rawBody : Str
  contentTypeIncludesJson : Bool
  parsedBody : Option JObj

structure ProxyConfig where
  convertToken : Bool
  tokenEndpoint : Str
  rateLimitEnabled : Bool
  providers : List (Str × ProviderConfig)

/-- The external readings a request consumes: Date.now values, the tokenizer,
the token-endpoint responses and the upstream responses (indexed by attempt),
and the URL builtin. -/
structure Oracles where
  createNow : Int
  clock : List Int
  snapNow : Int
  countTokens : Str → Int
  exchangeResp : Nat → TokenHttpResponse
  exchangeNow : Nat → Int
  upstreamStatus : Nat → Nat
  upstreamHeaders : Nat → List (Str × Str)
  urlPathnameOf : Str → Str
  urlRender : Str → Str → Str → Str

structure SendOutcome where
  outHeaders : List (Str × Str)
  sentBody : Option Str
  status : Nat
  respHeaders : List (Str × Str)
  cache : List (Str × TokenCacheEntry)

/-- The sendOnce closure of the handler: optionally exchange the inbound
credential for a bearer token and replace the authorization header, add the
telemetry headers to the outbound set, forward, and enrich the response
headers with the same telemetry. -/
def sendOnce (cfg : ProxyConfig) (req : RequestModel) (o : Oracles)
    (baseHeaders : List (Str × Str)) (originalAuth : Option Str)
    (snap : Option TokenLimitSnapshot) (forwardBody : Str)
    (cache : List (Str × TokenCacheEntry)) (attemptIdx : Nat)
    (forceRefresh : Bool) : SendOutcome :=
  let authTruthy : Option Str :=
    match originalAuth with
    | some a => if a = [] then none else some a
    | none => none
  let exch : Option Str × List (Str × TokenCacheEntry) :=
    match (if cfg.convertToken then authTruthy else none) with
    | some a =>
      getToken cache a forceRefresh (trimStr cfg.tokenEndpoint)
        (o.exchangeResp attemptIdx) (o.exchangeNow attemptIdx)
    | none => (none, cache)
  let hs :=
    match exch.1 with
    | some t => headersSet baseHeaders authHeaderKey ("Bearer ".toList ++ t)
    | none => baseHeaders
  let hs := setTokenLimitHeaders hs snap
  let body : Option Str :=
    if shouldIncludeBody req.method forwardBody then some forwardBody else none
  let respH := withTokenLimitHeadersH (o.upstreamHeaders attemptIdx) snap
  ⟨hs, body, o.upstreamStatus attemptIdx, respH, exch.2⟩

/-- The rate-limiter wait of the admission block: run only for a truthy
token-count payload; the flag records whether the wait was invoked. -/
def admissionWait (req : RequestModel) (buckets : List (Str × Bucket))
    (o : Oracles) (pm : Str × ProviderConfig) : Option (List (Str × Bucket) × Bool) :=
  let p := pm.2
  let prep := prepareRequestBody req.rawBody req.contentTypeIncludesJson req.parsedBody p req.pathname
  match prep.payloadForTokenCount with
  | some payload =>
    if payload = [] then some (buckets, false)
    else
      match waitForTokens buckets pm.1 p.tokenLimitPerMinute (o.countTokens payload)
          o.createNow o.clock with
      | none => none
      | some r => some (r.1, true)
  | none => some (buckets, false)

def admissionStep (req : RequestModel) (buckets : List (Str × Bucket))
    (o : Oracles) (pm : Str × ProviderConfig) :
    Option (List (Str × Bucket) × Option TokenLimitSnapshot × Bool) :=
  if 0 < pm.2.tokenLimitPerMinute then
    match admissionWait req buckets o pm with
    | none => none
    | some br =>
      let snapR := getUsageSnapshot br.1 pm.1 o.snapNow
      some (snapR.1, some snapR.2, br.2)
  else some (buckets, none, false)

/-- Truthiness of the inbound authorization header, as the handler tests it. -/
def authOkOf (req : RequestModel) : Bool :=
  match headersGet req.headers authHeaderKey with
  | some a => decide (a ≠ [])
  | none => false

structure HandleResult where
  status : Nat
  responseHeaders : List (Str × Str)
  upstreamUrl : Str
  attempts : List Bool
  outboundHeaders : List (List (Str × Str))
  admissionRan : Bool
  firstBodyCancelled : Bool
  buckets : List (Str × Bucket)
  tokenCache : List (Str × TokenCacheEntry)

/-- The base header set forwarded upstream: inbound headers without host, the
content-length overwritten and transfer-encoding dropped when the body was
mutated. -/
def baseHeadersOf (req : RequestModel) (prep : PreparedRequestBody) : List (Str × Str) :=
  let base0 := headersDelete req.headers hostHeaderKey
  if prep.bodyWasMutated then
    headersDelete (headersSet base0 contentLengthKey (natToStr prep.forwardBody.length))
      transferEncodingKey
  else base0

/-- The retry decision around the first send: return the first response unless
token conversion applies, the authorization header is truthy, and the first
status is 401 or 403, in which case the first body is cancelled and a single
forced-refresh resend supplies the response. -/
def dispatchFinish (cfg : ProxyConfig) (req : RequestModel) (o : Oracles)
    (adm : List (Str × Bucket) × Option TokenLimitSnapshot × Bool)
    (url : Str) (baseHeaders : List (Str × Str)) (originalAuth : Option Str)
    (fwd : Str) (s0 : SendOutcome) : HandleResult :=
  if ¬ (cfg.convertToken = true ∧ authOkOf req = true) then
    ⟨s0.status, s0.respHeaders, url, [false], [s0.outHeaders], adm.2.2, false, adm.1, s0.cache⟩
  else if s0.status ≠ 401 ∧ s0.status ≠ 403 then
    ⟨s0.status, s0.respHeaders, url, [false], [s0.outHeaders], adm.2.2, false, adm.1, s0.cache⟩
  else
    let s1 := sendOnce cfg req o baseHeaders originalAuth adm.2.1 fwd s0.cache 1 true
    ⟨s1.status, s1.respHeaders, url, [false, true], [s0.outHeaders, s1.outHeaders], adm.2.2, true,
      adm.1, s1.cache⟩

/-- The dispatch tail of the handler once a provider matched and admission
passed: build the upstream URL and the base header set, send once, and retry
per dispatchFinish. -/
def dispatchStep (cfg : ProxyConfig) (req : RequestModel) (o : Oracles)
    (pm : Str × ProviderConfig)
    (adm : List (Str × Bucket) × Option TokenLimitSnapshot × Bool)
    (cache : List (Str × TokenCacheEntry)) : HandleResult :=
  let p := pm.2
  let prep := prepareRequestBody req.rawBody req.contentTypeIncludesJson req.parsedBody p req.pathname
  let model :=
    match prep.resolvedModel with
    | some m => m
    | none => p.defaultModel
  let destPfx := replaceModelTemplate p.upstreamTemplate model
  let url := buildUpstreamUrl o.urlPathnameOf o.urlRender destPfx req.pathname p.routePfx req.search
  let originalAuth := headersGet req.headers authHeaderKey
  let baseHeaders := baseHeadersOf req prep
  dispatchFinish cfg req o adm url baseHeaders originalAuth prep.forwardBody
    (sendOnce cfg req o baseHeaders originalAuth adm.2.1 prep.forwardBody cache 0 false)

/-- The app.all handler of index.ts: resolve the provider (404 on no match),
transform the body, run admission control, and dispatch with the single
auth-retry.  none models an admission wait that outlives the supplied clock. -/
def handleRequest (cfg : ProxyConfig) (req : RequestModel)
    (buckets : List (Str × Bucket)) (cache : List (Str × TokenCacheEntry))
    (o : Oracles) : Option HandleResult :=
  match resolveProvider cfg.providers req.pathname with
  | none => some ⟨404, [], [], [], [], false, false, buckets, cache⟩
  | some pm =>
    match admissionStep req buckets o pm with
    | none => none
    | some adm => some (dispatchStep cfg req o pm adm cache)

def c1Provider : ProviderConfig :=
  ⟨"/openai".toList, "https://up/\x7bmodel\x7d".toList, "gpt".toList, [], [], false, [], 0⟩

def c1Cfg : ProxyConfig := ⟨true, "https://tok".toList, false, [("oa".toList, c1Provider)]⟩

def c1Req : RequestModel :=
  ⟨"POST".toList, "/openai/v1/chat".toList, [], [(authHeaderKey, "Basic xyz".toList)],
    [], false, none⟩

def c1Orc : Oracles :=
  ⟨0, [], 0, fun _ => 0, fun _ => ⟨false, [], false, none⟩, fun _ => 0,
    fun i => if i = 0 then 401 else 200, fun _ => [], fun s => s, fun s p q => s ++ p ++ q⟩

def c8Bucket : Bucket := ⟨60, 40, 1, 0, [⟨-70000, 5⟩, ⟨-1000, 7⟩], 12⟩

def c5Provider : ProviderConfig :=
  ⟨"/p".toList, "https://u".toList, [], [], [], true, ["junk".toList], 0⟩

def c5Obj : JObj := [(modelKey, Json.str ("gpt-4".toList))]

def c6Models : List (Str × ProviderModelConfig) :=
  [("canonical-y".toList, ⟨some ("alias-x".toList)⟩)]

def c6Provider : ProviderConfig :=
  ⟨"/p".toList, "https://u".toList, [], c6Models, buildModelAliasLookup c6Models,
    false, [modelKey], 0⟩

def c6Obj : JObj := [(modelKey, Json.str ("alias-x".toList))]

def c6wProvider : ProviderConfig :=
  ⟨"/p".toList, "https://u".toList, [], c6Models, buildModelAliasLookup c6Models,
    false, ["junk".toList], 0⟩

def c2EmptyProvider : ProviderConfig := ⟨[], "https://u".toList, [], [], [], false, [], 0⟩

def c2ProvA : ProviderConfig := ⟨"/v1".toList, "https://a".toList, [], [], [], false, [], 0⟩

def c2ProvB : ProviderConfig :=
  ⟨"/v1/chat".toList, "https://b".toList, [], [], [], false, [], 0⟩

def c2Provs : List (Str × ProviderConfig) :=
  [("a".toList, c2ProvA), ("b".toList, c2ProvB)]

def c7Provider : ProviderConfig := ⟨"/p".toList, "https://u".toList, [], [], [], false, [], 5⟩

def c7Cfg : ProxyConfig := ⟨false, [], false, [("pr".toList, c7Provider)]⟩

def c7Req : RequestModel := ⟨"GET".toList, "/p/x".toList, [], [], [], false, none⟩

def c7Orc : Oracles :=
  ⟨0, [], 0, fun _ => 0, fun _ => ⟨false, [], false, none⟩, fun _ => 0,
    fun _ => 200, fun _ => [], fun s => s, fun s p q => s ++ p ++ q⟩

/-! # Theorems -/

theorem lookupAssoc_mem {α : Type} {l : List (Str × α)} {k : Str} {v : α}
    (h : lookupAssoc l k = some v) : (k, v) ∈ l := by
  induction l with
  | nil => simp [lookupAssoc] at h
  | cons hd tl ih =>
    obtain ⟨k', v'⟩ := hd
    by_cases hk : k' = k
    · subst hk
      simp [lookupAssoc] at h
      simp [h]
    · simp [lookupAssoc, hk] at h
      exact List.mem_cons_of_mem _ (ih h)

theorem mem_setAssoc {α : Type} {l : List (Str × α)} {k : Str} {v : α}
    {e : Str × α} (h : e ∈ setAssoc l k v) : e ∈ l ∨ e = (k, v) := by
  induction l with
  | nil => simp [setAssoc] at h; simp [h]
  | cons hd tl ih =>
    obtain ⟨k', v'⟩ := hd
    by_cases hk : k' = k
    · subst hk
      simp [setAssoc] at h
      rcases h with h | h
      · right; simp [h]
      · left; exact List.mem_cons_of_mem _ h
    · simp [setAssoc, hk] at h
      rcases h with h | h
      · left; simp [h]
      · rcases ih h with h' | h'
        · left; exact List.mem_cons_of_mem _ h'
        · right; exact h'

theorem objGet_objSet_same (o : JObj) (k : Str) (v : Json) :
    objGet (objSet o k v) k = some v := by
  induction o with
  | nil => simp [objGet, objSet, lookupAssoc, setAssoc]
  | cons hd tl ih =>
    obtain ⟨k', v'⟩ := hd
    by_cases hk : k' = k
    · subst hk; simp [objGet, objSet, lookupAssoc, setAssoc]
    · simpa [objGet, objSet, lookupAssoc, setAssoc, hk] using ih

theorem objGet_objSet_other (o : JObj) (k k2 : Str) (v : Json) (hne : k2 ≠ k) :
    objGet (objSet o k v) k2 = objGet o k2 := by
  induction o with
  | nil => simp [objGet, objSet, lookupAssoc, setAssoc, Ne.symm hne]
  | cons hd tl ih =>
    obtain ⟨k', v'⟩ := hd
    by_cases hk : k' = k
    · subst hk
      simp [objGet, objSet, lookupAssoc, setAssoc, Ne.symm hne]
    · by_cases hk2 : k' = k2
      · subst hk2; simp [objGet, objSet, lookupAssoc, setAssoc, hk]
      · simpa [objGet, objSet, lookupAssoc, setAssoc, hk, hk2] using ih

theorem objGet_objDelete_other (o : JObj) (k k2 : Str) (hne : k2 ≠ k) :
    objGet (objDelete o k) k2 = objGet o k2 := by
  induction o with
  | nil => simp [objGet, objDelete, lookupAssoc]
  | cons hd tl ih =>
    obtain ⟨k', v'⟩ := hd
    by_cases hk : k' = k
    · subst hk
      simp [objGet, objDelete, lookupAssoc, Ne.symm hne]
      simpa [objGet, objDelete] using ih
    · by_cases hk2 : k' = k2
      · subst hk2; simp [objGet, objDelete, lookupAssoc, hk]
      · simpa [objGet, objDelete, lookupAssoc, hk, hk2] using ih

theorem startsWithRoutePfx_iff (pathname : Str) (p : ProviderConfig) :
    startsWithRoutePfx pathname p.routePfx = true ↔ specMatches pathname p := by
  unfold startsWithRoutePfx specMatches
  by_cases hpre : (toLowerStr p.routePfx).isPrefixOf (toLowerStr pathname)
  · by_cases hlen : (toLowerStr pathname).length = (toLowerStr p.routePfx).length
    · simp [hpre, hlen]
    · simp [hpre, hlen]
  · simp [hpre]

theorem resolveLoop_spec (pathname : Str) :
    ∀ (l : List (Str × ProviderConfig)) (longest : Nat)
      (acc : Option (Str × ProviderConfig)),
    (∀ na pa, acc = some (na, pa) → goodFor pathname pa ∧ longest = pa.routePfx.length) →
    (acc = none → longest = 0) →
    ((∀ na pa, resolveLoop pathname l longest acc = some (na, pa) →
        ((na, pa) ∈ l ∨ acc = some (na, pa)) ∧ goodFor pathname pa ∧
        longest ≤ pa.routePfx.length ∧
        ∀ n2 p2, (n2, p2) ∈ l → goodFor pathname p2 →
          p2.routePfx.length ≤ pa.routePfx.length)
      ∧ (resolveLoop pathname l longest acc = none → acc = none)
      ∧ (resolveLoop pathname l longest acc = none →
        ∀ n2 p2, (n2, p2) ∈ l → ¬ goodFor pathname p2)) := by
  intro l
  induction l with
  | nil =>
    intro longest acc hacc haccN
    refine ⟨?_, ?_, ?_⟩
    · intro na pa hr
      simp only [resolveLoop] at hr
      obtain ⟨hg, hl⟩ := hacc na pa hr
      exact ⟨Or.inr hr, hg, le_of_eq hl, by intro n2 p2 hm; simp at hm⟩
    · intro hr; simpa [resolveLoop] using hr
    · intro _ n2 p2 hm; simp at hm
  | cons hd rest ih =>
    intro longest acc hacc haccN
    obtain ⟨name, p⟩ := hd
    by_cases hemp : p.routePfx = []
    · have hloop : resolveLoop pathname ((name, p) :: rest) longest acc =
          resolveLoop pathname rest longest acc := by
        simp [resolveLoop, hemp]
      obtain ⟨ihs, ihn0, ihn⟩ := ih longest acc hacc haccN
      refine ⟨?_, ?_, ?_⟩
      · intro na pa hr
        rw [hloop] at hr
        obtain ⟨hmem, hg, hle, hmax⟩ := ihs na pa hr
        refine ⟨?_, hg, hle, ?_⟩
        · rcases hmem with h | h
          · exact Or.inl (List.mem_cons_of_mem _ h)
          · exact Or.inr h
        · intro n2 p2 hm hg2
          rcases List.mem_cons.mp hm with h | h
          · exact absurd hg2.1 (by simp [Prod.ext_iff] at h; simp [h.2, hemp])
          · exact hmax n2 p2 h hg2
      · intro hr; rw [hloop] at hr; exact ihn0 hr
      · intro hr n2 p2 hm hg2
        rw [hloop] at hr
        rcases List.mem_cons.mp hm with h | h
        · exact absurd hg2.1 (by simp [Prod.ext_iff] at h; simp [h.2, hemp])
        · exact ihn hr n2 p2 h hg2
    · by_cases hsw : startsWithRoutePfx pathname p.routePfx = true
      · have hgoodHd : goodFor pathname p := ⟨hemp, hsw⟩
        by_cases hlt : longest < p.routePfx.length
        · have hloop : resolveLoop pathname ((name, p) :: rest) longest acc =
              resolveLoop pathname rest p.routePfx.length (some (name, p)) := by
            simp [resolveLoop, hemp, hsw, hlt]
          obtain ⟨ihs, ihn0, ihn⟩ := ih p.routePfx.length (some (name, p))
            (by intro na pa h; rw [Option.some_inj] at h
                obtain ⟨h1, h2⟩ := Prod.mk.injEq _ _ _ _ ▸ h
                subst h2; exact ⟨hgoodHd, rfl⟩)
            (by intro h; simp at h)
          refine ⟨?_, ?_, ?_⟩
          · intro na pa hr
            rw [hloop] at hr
            obtain ⟨hmem, hg, hle, hmax⟩ := ihs na pa hr
            refine ⟨?_, hg, le_trans (le_of_lt hlt) hle, ?_⟩
            · rcases hmem with h | h
              · exact Or.inl (List.mem_cons_of_mem _ h)
              · rw [Option.some_inj] at h
                exact Or.inl (by rw [h]; exact List.mem_cons_self _ _)
            · intro n2 p2 hm hg2
              rcases List.mem_cons.mp hm with h | h
              · have : p2 = p := by simp [Prod.ext_iff] at h; exact h.2
                rw [this]; exact hle
              · exact hmax n2 p2 h hg2
          · intro hr; rw [hloop] at hr; exact absurd (ihn0 hr) (by simp)
          · intro hr; rw [hloop] at hr; exact absurd (ihn0 hr) (by simp)
        · have hloop : resolveLoop pathname ((name, p) :: rest) longest acc =
              resolveLoop pathname rest longest acc := by
            simp [resolveLoop, hemp, hsw, hlt]
          obtain ⟨ihs, ihn0, ihn⟩ := ih longest acc hacc haccN
          have hplen : p.routePfx.length ≤ longest := Nat.le_of_not_lt hlt
          have hpos : 0 < p.routePfx.length := List.length_pos.mpr hemp
          refine ⟨?_, ?_, ?_⟩
          · intro na pa hr
            rw [hloop] at hr
            obtain ⟨hmem, hg, hle, hmax⟩ := ihs na pa hr
            refine ⟨?_, hg, hle, ?_⟩
            · rcases hmem with h | h
              · exact Or.inl (List.mem_cons_of_mem _ h)
              · exact Or.inr h
            · intro n2 p2 hm hg2
              rcases List.mem_cons.mp hm with h | h
              · have : p2 = p := by simp [Prod.ext_iff] at h; exact h.2
                rw [this]; exact le_trans hplen hle
              · exact hmax n2 p2 h hg2
          · intro hr; rw [hloop] at hr; exact ihn0 hr
          · intro hr
            rw [hloop] at hr
            have haccNone := ihn0 hr
            have hzero := haccN haccNone
            omega
      · have hloop : resolveLoop pathname ((name, p) :: rest) longest acc =
            resolveLoop pathname rest longest acc := by
          simp [resolveLoop, hemp, hsw]
        obtain ⟨ihs, ihn0, ihn⟩ := ih longest acc hacc haccN
        refine ⟨?_, ?_, ?_⟩
        · intro na pa hr
          rw [hloop] at hr
          obtain ⟨hmem, hg, hle, hmax⟩ := ihs na pa hr
          refine ⟨?_, hg, hle, ?_⟩
          · rcases hmem with h | h
            · exact Or.inl (List.mem_cons_of_mem _ h)
            · exact Or.inr h
          · intro n2 p2 hm hg2
            rcases List.mem_cons.mp hm with h | h
            · have : p2 = p := by simp [Prod.ext_iff] at h; exact h.2
              exact absurd (this ▸ hg2.2) (by simp [hsw])
            · exact hmax n2 p2 h hg2
        · intro hr; rw [hloop] at hr; exact ihn0 hr
        · intro hr n2 p2 hm hg2
          rw [hloop] at hr
          rcases List.mem_cons.mp hm with h | h
          · have : p2 = p := by simp [Prod.ext_iff] at h; exact h.2
            exact absurd (this ▸ hg2.2) (by simp [hsw])
          · exact ihn hr n2 p2 h hg2

/-! ## Claim C3: rate-limiter escape valve -/

/-- C3: for every key and bucket state, waitForTokens is an immediate no-op —
no sleeping, no consumption, no bucket mutation — whenever the per-minute
limit is non-positive, the requested amount is non-positive, or the requested
amount exceeds the limit; in particular an over-limit request is admitted
unthrottled regardless of the bucket balance. -/
theorem c3_waitForTokens_escape_valve (buckets : List (Str × Bucket)) (key : Str)
    (limitPerMinute tokens : Int) (createNow : Int) (clock : List Int)
    (h : limitPerMinute ≤ 0 ∨ tokens ≤ 0 ∨ limitPerMinute < tokens) :
    waitForTokens buckets key limitPerMinute tokens createNow clock = some (buckets, []) := by
  unfold waitForTokens
  rcases h with h | h | h
  · simp [h]
  · simp [h]
  · by_cases h1 : limitPerMinute ≤ 0 ∨ tokens ≤ 0
    · simp [h1]
    · simp [h1, h]

/-- Witness for C3: a 100-token request against a 60-per-minute limit is
admitted immediately with an empty bucket map left untouched. -/
theorem c3_waitForTokens_escape_valve_witness :
    ((60 : Int) ≤ 0 ∨ (100 : Int) ≤ 0 ∨ (60 : Int) < 100) ∧
    waitForTokens [] ("openai".toList) 60 100 0 [] = some ([], []) :=
  ⟨by omega, c3_waitForTokens_escape_valve [] ("openai".toList) 60 100 0 [] (by omega)⟩

/-! ## Claim C4: token-exchange failures leave the credential cache alone -/

/-- C4: when getToken actually performs the exchange (forced refresh or no
truthy cached token), a non-success status or a blank body yields none with
the cache exactly as before, and a successful exchange returns the new token
and overwrites the entry for the key with it and a fresh timestamp. -/
theorem c4_getToken_cache_discipline (cache : List (Str × TokenCacheEntry))
    (key : Str) (forceRefresh : Bool) (endpointTrimmed : Str)
    (resp : TokenHttpResponse) (now : Int)
    (hexch : forceRefresh = true ∨ cachedTokenOf cache key = none) :
    ((resp.ok = false ∨ trimStr resp.body = []) →
      getToken cache key forceRefresh endpointTrimmed resp now = (none, cache)) ∧
    (∀ t, requestToken endpointTrimmed resp = some t →
      getToken cache key forceRefresh endpointTrimmed resp now =
        (some t, setAssoc cache key ⟨t, now⟩)) := by
  have hguard : ¬ (forceRefresh = false ∧ (cachedTokenOf cache key).isSome = true) := by
    rcases hexch with h | h
    · simp [h]
    · simp [h]
  constructor
  · intro hfail
    have hreq : requestToken endpointTrimmed resp = none := by
      unfold requestToken
      rcases hfail with h | h
      · by_cases he : endpointTrimmed = [] <;> simp [he, h]
      · by_cases he : endpointTrimmed = [] <;> by_cases ho : resp.ok <;> simp [he, h, ho]
    unfold getToken
    simp [hguard, hreq]
  · intro t ht
    unfold getToken
    simp [hguard, ht]

/-- Witness for C4: an empty cache is a cache miss; a successful plain-text
exchange caches and returns the trimmed body. -/
theorem c4_getToken_cache_discipline_witness :
    getToken [] ("Bearer k".toList) false ("https://t".toList)
        ⟨true, " tok ".toList, false, none⟩ 5 =
      (some ("tok".toList), [(("Bearer k".toList), ⟨"tok".toList, 5⟩)]) :=
  (c4_getToken_cache_discipline [] ("Bearer k".toList) false ("https://t".toList)
      ⟨true, " tok ".toList, false, none⟩ 5 (Or.inr rfl)).2 ("tok".toList) rfl

/-! ## Claim C1: the single auth retry -/

theorem sendOnce_status (cfg : ProxyConfig) (req : RequestModel) (o : Oracles)
    (baseHeaders : List (Str × Str)) (originalAuth : Option Str)
    (snap : Option TokenLimitSnapshot) (forwardBody : Str)
    (cache : List (Str × TokenCacheEntry)) (attemptIdx : Nat) (forceRefresh : Bool) :
    (sendOnce cfg req o baseHeaders originalAuth snap forwardBody cache attemptIdx
      forceRefresh).status = o.upstreamStatus attemptIdx := rfl

/-- C1: with token conversion enabled and a truthy inbound authorization
header, a first upstream status of 401 or 403 triggers exactly one retry with
forceRefresh=true, the first body being cancelled, and the second response is
returned; under any other first status, or with conversion disabled or no
authorization header, the single first attempt's response is returned with no
retry. -/
theorem c1_retry_protocol (cfg : ProxyConfig) (req : RequestModel)
    (buckets : List (Str × Bucket)) (cache : List (Str × TokenCacheEntry))
    (o : Oracles) (pm : Str × ProviderConfig)
    (adm : List (Str × Bucket) × Option TokenLimitSnapshot × Bool)
    (hres : resolveProvider cfg.providers req.pathname = some pm)
    (hadm : admissionStep req buckets o pm = some adm) :
    ∃ r, handleRequest cfg req buckets cache o = some r ∧
      ((cfg.convertToken = true ∧ authOkOf req = true ∧
          (o.upstreamStatus 0 = 401 ∨ o.upstreamStatus 0 = 403)) →
        r.attempts = [false, true] ∧ r.firstBodyCancelled = true ∧
          r.status = o.upstreamStatus 1) ∧
      (¬ (cfg.convertToken = true ∧ authOkOf req = true ∧
          (o.upstreamStatus 0 = 401 ∨ o.upstreamStatus 0 = 403)) →
        r.attempts = [false] ∧ r.firstBodyCancelled = false ∧
          r.status = o.upstreamStatus 0) := by
  refine ⟨dispatchStep cfg req o pm adm cache, ?_, ?_, ?_⟩
  · unfold handleRequest
    rw [hres]
    simp [hadm]
  · intro ⟨hconv, hauth, hstat⟩
    unfold dispatchStep dispatchFinish
    simp only [sendOnce_status, hconv, hauth]
    have hguard : ¬ (¬ (true = true ∧ true = true)) := by simp
    rcases hstat with h | h <;> simp [h, sendOnce_status]
  · intro hneg
    unfold dispatchStep dispatchFinish
    by_cases hconv : cfg.convertToken = true
    · by_cases hauth : authOkOf req = true
      · have hstat : ¬ (o.upstreamStatus 0 = 401 ∨ o.upstreamStatus 0 = 403) := by
          intro h; exact hneg ⟨hconv, hauth, h⟩
        have h401 : o.upstreamStatus 0 ≠ 401 := fun h => hstat (Or.inl h)
        have h403 : o.upstreamStatus 0 ≠ 403 := fun h => hstat (Or.inr h)
        simp [hconv, hauth, sendOnce_status, h401, h403]
      · simp [hconv, hauth, sendOnce_status]
    · simp [hconv, sendOnce_status]

/-- Witness for C1: a 401 first status under enabled conversion with an
authorization header yields two attempts, the second forced, ending 200. -/
theorem c1_retry_protocol_witness :
    (handleRequest c1Cfg c1Req [] [] c1Orc).map HandleResult.attempts =
        some [false, true] ∧
    (handleRequest c1Cfg c1Req [] [] c1Orc).map HandleResult.firstBodyCancelled = some true ∧
    (handleRequest c1Cfg c1Req [] [] c1Orc).map HandleResult.status = some 200 := by
  obtain ⟨r, hr, hyes, _⟩ :=
    c1_retry_protocol c1Cfg c1Req [] [] c1Orc ("oa".toList, c1Provider)
      ([], none, false) rfl rfl
  obtain ⟨h1, h2, h3⟩ := hyes ⟨rfl, by decide, Or.inl rfl⟩
  rw [hr]
  refine ⟨?_, ?_, ?_⟩ <;> simp [h1, h2, h3, c1Orc]

/-! ## Claim C8: usage-window bookkeeping invariant -/

theorem sumTokens_nil : sumTokens [] = 0 := rfl

theorem sumTokens_cons (s : UsageSample) (w : List UsageSample) :
    sumTokens (s :: w) = s.tokens + sumTokens w := by
  simp [sumTokens]

theorem sumTokens_append (w1 w2 : List UsageSample) :
    sumTokens (w1 ++ w2) = sumTokens w1 + sumTokens w2 := by
  simp [sumTokens]

theorem sumTokens_nonneg (w : List UsageSample) (h : ∀ s ∈ w, 0 ≤ s.tokens) :
    0 ≤ sumTokens w := by
  induction w with
  | nil => simp [sumTokens]
  | cons s rest ih =>
    rw [sumTokens_cons]
    have h1 := h s (List.mem_cons_self s rest)
    have h2 := ih (fun x hx => h x (List.mem_cons_of_mem _ hx))
    omega

theorem pruneLoop_spec (cutoff : Int) :
    ∀ (w : List UsageSample) (used : Int),
    used = sumTokens w →
    (∀ s ∈ w, 0 < s.tokens) →
    List.Pairwise (fun a c => a.atUnixMs ≤ c.atUnixMs) w →
    (pruneLoop cutoff w used).2 = sumTokens (pruneLoop cutoff w used).1 ∧
    0 ≤ (pruneLoop cutoff w used).2 ∧
    (∀ s ∈ (pruneLoop cutoff w used).1, 0 < s.tokens) ∧
    List.Pairwise (fun a c => a.atUnixMs ≤ c.atUnixMs) (pruneLoop cutoff w used).1 ∧
    (∀ s ∈ (pruneLoop cutoff w used).1, cutoff ≤ s.atUnixMs) := by
  intro w
  induction w with
  | nil =>
    intro used hsum _ _
    simp [pruneLoop, hsum, sumTokens]
  | cons s rest ih =>
    intro used hsum hpos hsorted
    by_cases hc : cutoff ≤ s.atUnixMs
    · have hres : pruneLoop cutoff (s :: rest) used = (s :: rest, used) := by
        simp [pruneLoop, hc]
      rw [hres]
      have hnn : 0 ≤ used := by
        rw [hsum]
        exact sumTokens_nonneg _ (fun x hx => le_of_lt (hpos x hx))
      refine ⟨hsum, hnn, hpos, hsorted, ?_⟩
      intro x hx
      rcases List.mem_cons.mp hx with h | h
      · rw [h]; exact hc
      · have := (List.pairwise_cons.mp hsorted).1 x h
        omega
    · have hres : pruneLoop cutoff (s :: rest) used =
          pruneLoop cutoff rest (used - s.tokens) := by
        simp [pruneLoop, hc]
      rw [hres]
      have hsum2 : used - s.tokens = sumTokens rest := by
        rw [hsum, sumTokens_cons]; omega
      exact ih (used - s.tokens) hsum2
        (fun x hx => hpos x (List.mem_cons_of_mem _ hx))
        (List.pairwise_cons.mp hsorted).2

theorem pruneUsageWindow_spec (b2 : Bucket) (now : Int)
    (h1 : b2.usedInWindow = sumTokens b2.usageWindow)
    (h2 : ∀ s ∈ b2.usageWindow, 0 < s.tokens)
    (h3 : List.Pairwise (fun a c => a.atUnixMs ≤ c.atUnixMs) b2.usageWindow) :
    (pruneUsageWindow b2 now).usedInWindow =
        sumTokens (pruneUsageWindow b2 now).usageWindow ∧
      (∀ s ∈ (pruneUsageWindow b2 now).usageWindow, now - 60000 ≤ s.atUnixMs) ∧
      (∀ s ∈ (pruneUsageWindow b2 now).usageWindow, s ∈ b2.usageWindow) := by
  obtain ⟨hs, hnn, hp, hso, hcut⟩ :=
    pruneLoop_spec (now - 60000) b2.usageWindow b2.usedInWindow h1 h2 h3
  have hclamp : ¬ ((pruneLoop (now - 60000) b2.usageWindow b2.usedInWindow).2 < 0) := by omega
  constructor
  · simp only [pruneUsageWindow, hclamp, if_false]
    exact hs
  constructor
  · intro s hsmem
    simp only [pruneUsageWindow] at hsmem
    exact hcut s hsmem
  · intro s hsmem
    simp only [pruneUsageWindow] at hsmem
    clear hs hnn hp hso hcut hclamp
    revert hsmem
    have : ∀ (w : List UsageSample) (u : Int),
        s ∈ (pruneLoop (now - 60000) w u).1 → s ∈ w := by
      intro w
      induction w with
      | nil => intro u h; simp [pruneLoop] at h
      | cons a rest ih2 =>
        intro u h
        by_cases hc : now - 60000 ≤ a.atUnixMs
        · simpa [pruneLoop, hc] using h
        · simp only [pruneLoop, hc, if_false] at h
          exact List.mem_cons_of_mem _ (ih2 _ h)
    exact this b2.usageWindow b2.usedInWindow

/-- C8: from a bucket whose running sum matches its window, whose samples are
positive, and whose timestamps are sorted (as recordUsage produces under a
monotone clock), every pruneUsageWindow and every recordUsage leaves
usedInWindow equal to the sum of the window samples, and a prune at time now
retains only samples within the trailing 60 seconds. -/
theorem c8_usage_window_invariant (b : Bucket) (now tokens : Int)
    (hsum : b.usedInWindow = sumTokens b.usageWindow)
    (hpos : ∀ s ∈ b.usageWindow, 0 < s.tokens)
    (hsorted : List.Pairwise (fun a c => a.atUnixMs ≤ c.atUnixMs) b.usageWindow)
    (hmono : ∀ s ∈ b.usageWindow, s.atUnixMs ≤ now) :
    ((pruneUsageWindow b now).usedInWindow =
        sumTokens (pruneUsageWindow b now).usageWindow ∧
      ∀ s ∈ (pruneUsageWindow b now).usageWindow, now - 60000 ≤ s.atUnixMs) ∧
    ((recordUsage b now tokens).usedInWindow =
        sumTokens (recordUsage b now tokens).usageWindow ∧
      ∀ s ∈ (recordUsage b now tokens).usageWindow, s.atUnixMs ≤ now) := by
  have hprune : ∀ (b2 : Bucket),
      b2.usedInWindow = sumTokens b2.usageWindow →
      (∀ s ∈ b2.usageWindow, 0 < s.tokens) →
      List.Pairwise (fun a c => a.atUnixMs ≤ c.atUnixMs) b2.usageWindow →
      (pruneUsageWindow b2 now).usedInWindow =
          sumTokens (pruneUsageWindow b2 now).usageWindow ∧
        (∀ s ∈ (pruneUsageWindow b2 now).usageWindow, now - 60000 ≤ s.atUnixMs) ∧
        (∀ s ∈ (pruneUsageWindow b2 now).usageWindow, s ∈ b2.usageWindow) :=
    fun b2 h1 h2 h3 => pruneUsageWindow_spec b2 now h1 h2 h3
  constructor
  · obtain ⟨h1, h2, _⟩ := hprune b hsum hpos hsorted
    exact ⟨h1, h2⟩
  · by_cases ht : tokens ≤ 0
    · have : recordUsage b now tokens = b := by simp [recordUsage, ht]
      rw [this]
      exact ⟨hsum, hmono⟩
    · have hrec : recordUsage b now tokens =
          pruneUsageWindow
            { b with
              usageWindow := b.usageWindow ++ [⟨now, tokens⟩]
              usedInWindow := b.usedInWindow + tokens } now := by
        simp [recordUsage, ht]
      set b3 : Bucket :=
        { b with
          usageWindow := b.usageWindow ++ [⟨now, tokens⟩]
          usedInWindow := b.usedInWindow + tokens } with hb3
      have h1 : b3.usedInWindow = sumTokens b3.usageWindow := by
        simp [hb3, sumTokens_append, sumTokens_cons, sumTokens_nil, hsum]
      have h2 : ∀ s ∈ b3.usageWindow, 0 < s.tokens := by
        intro s hs
        simp only [hb3, List.mem_append, List.mem_singleton] at hs
        rcases hs with hs | hs
        · exact hpos s hs
        · subst hs; simp only []; omega
      have h3 : List.Pairwise (fun a c => a.atUnixMs ≤ c.atUnixMs) b3.usageWindow := by
        simp only [hb3]
        rw [List.pairwise_append]
        refine ⟨hsorted, by simp, ?_⟩
        intro a ha c hc
        simp only [List.mem_singleton] at hc
        rw [hc]
        exact hmono a ha
      obtain ⟨hh1, hh2, hh3⟩ := hprune b3 h1 h2 h3
      rw [hrec]
      refine ⟨hh1, ?_⟩
      intro s hs
      have := hh3 s hs
      simp only [hb3, List.mem_append, List.mem_singleton] at this
      rcases this with h | h
      · exact hmono s h
      · rw [h]

/-- Witness for C8: a bucket holding one stale and one fresh sample keeps the
sum equality through a prune at time 0 and through recording 3 tokens. -/
theorem c8_usage_window_invariant_witness :
    (pruneUsageWindow c8Bucket 0).usedInWindow =
        sumTokens (pruneUsageWindow c8Bucket 0).usageWindow ∧
    (recordUsage c8Bucket 0 3).usedInWindow =
        sumTokens (recordUsage c8Bucket 0 3).usageWindow := by
  have h := c8_usage_window_invariant c8Bucket 0 3 (by decide)
    (by intro s hs; simp [c8Bucket] at hs; rcases hs with h | h <;> simp [h])
    (by simp only [c8Bucket]; decide)
    (by intro s hs; simp [c8Bucket] at hs; rcases hs with h | h <;> simp [h])
  exact ⟨h.1.1, h.2.1⟩

/-! ## Claim C5: untouched bodies pass through byte-identical -/

theorem stripProps_no_hit (strips : List Str) :
    ∀ (o : JObj) (u : Bool),
    (∀ s ∈ strips, s = [] ∨ lookupAssoc o s = none) →
    stripProps o strips u = (o, u) := by
  induction strips with
  | nil => intro o u _; rfl
  | cons s rest ih =>
    intro o u h
    rcases h s (List.mem_cons_self s rest) with hs | hs
    · rw [hs]
      simp only [stripProps, if_pos rfl]
      exact ih o u (fun x hx => h x (List.mem_cons_of_mem _ hx))
    · by_cases hse : s = []
      · simp only [stripProps, hse, if_pos rfl]
        exact ih o u (fun x hx => h x (List.mem_cons_of_mem _ hx))
      · have hown : hasOwn o s = false := by simp [hasOwn, hs]
        simp only [stripProps, hse, if_neg hse, hown, Bool.false_eq_true, if_false]
        exact ih o u (fun x hx => h x (List.mem_cons_of_mem _ hx))

/-- C5: a body needing no change passes through unmutated and byte-identical:
this covers the empty body, a non-JSON content type, a body safeParseJsonObject
rejects, and a JSON object whose model field already equals the resolved
model, with streaming suppression inapplicable and no strip property
present. -/
theorem c5_pass_through_idempotent (rawBody : Str) (ctJson : Bool)
    (parsedBody : Option JObj) (p : ProviderConfig) (pathname : Str)
    (h : rawBody = [] ∨ ctJson = false ∨ parsedBody = none ∨
      (∃ ob, parsedBody = some ob ∧
        objGet ob modelKey = some (Json.str (resolveModelFor ob p)) ∧
        ¬ (p.disableStreaming = true ∧
            chatCompletionsSuffix.isSuffixOf (toLowerStr pathname) = true) ∧
        (∀ s ∈ p.stripRequestProperties, s = [] ∨ lookupAssoc ob s = none))) :
    (prepareRequestBody rawBody ctJson parsedBody p pathname).bodyWasMutated = false ∧
    (prepareRequestBody rawBody ctJson parsedBody p pathname).forwardBody = rawBody := by
  rcases h with h | h | h | h
  · unfold prepareRequestBody
    simp [h]
  · unfold prepareRequestBody
    by_cases hb : rawBody = [] <;> simp [hb, h]
  · unfold prepareRequestBody
    by_cases hb : rawBody = [] <;> by_cases hc : ctJson <;> simp [hb, hc, h]
  · obtain ⟨ob, hob, hmodel, hstream, hstrip⟩ := h
    have hstep2 : modelStep ob p = (ob, false) := by
      unfold modelStep
      have : jsEqStr (objGet ob modelKey) (resolveModelFor ob p) = true := by
        rw [hmodel]; simp [jsEqStr]
      simp [this]
    have happly : (p.disableStreaming &&
        chatCompletionsSuffix.isSuffixOf (toLowerStr pathname)) = false := by
      rcases Bool.eq_false_or_eq_true p.disableStreaming with hd | hd
      · rcases Bool.eq_false_or_eq_true
          (chatCompletionsSuffix.isSuffixOf (toLowerStr pathname)) with hs | hs
        · exact absurd ⟨hd, hs⟩ hstream
        · simp [hs]
      · simp [hd]
    have hstep3 : streamStep (modelStep ob p) p pathname = (ob, false) := by
      unfold streamStep
      rw [happly, hstep2]
      simp
    have hsteps : transformSteps ob p pathname = (ob, false) := by
      unfold transformSteps
      rw [hstep3]
      exact stripProps_no_hit p.stripRequestProperties ob false hstrip
    unfold prepareRequestBody
    by_cases hb : rawBody = []
    · simp [hb]
    · by_cases hc : ctJson
      · rw [hob]
        simp [hb, hc, hsteps]
      · simp [hb, hc]

/-- Witness for C5: a JSON object body whose model resolves to itself, on a
path without the /chat/completions suffix, with the single strip property
absent, passes through unmutated with the original bytes. -/
theorem c5_pass_through_idempotent_witness :
    (prepareRequestBody ("B".toList) true (some c5Obj) c5Provider
        ("/p/v1/embeddings".toList)).bodyWasMutated = false ∧
    (prepareRequestBody ("B".toList) true (some c5Obj) c5Provider
        ("/p/v1/embeddings".toList)).forwardBody = "B".toList :=
  c5_pass_through_idempotent ("B".toList) true (some c5Obj) c5Provider
    ("/p/v1/embeddings".toList)
    (Or.inr (Or.inr (Or.inr ⟨c5Obj, rfl, rfl, by decide,
      by intro s hs; simp [c5Provider] at hs; rw [hs]; right; rfl⟩)))

/-! ## Claim C6: model aliasing round-trip -/

theorem dropTrailingWs_eq_rdropWhile (l : Str) :
    dropTrailingWs l = List.rdropWhile Char.isWhitespace l := rfl

theorem dropWhile_rdropWhile_stable (p : Char → Bool) (l : Str) :
    ((l.dropWhile p).rdropWhile p).dropWhile p = (l.dropWhile p).rdropWhile p := by
  cases hR : (l.dropWhile p).rdropWhile p with
  | nil => simp
  | cons a rest =>
    have hpre := List.rdropWhile_prefix p (l.dropWhile p)
    rw [hR] at hpre
    obtain ⟨r, hr⟩ := hpre
    have heq : l.dropWhile p = a :: (rest ++ r) := by rw [← hr]; simp
    have hl0 : 0 < (l.dropWhile p).length := by rw [heq]; simp
    have hget := List.dropWhile_get_zero_not p l hl0
    have ha : (l.dropWhile p).get ⟨0, hl0⟩ = a := by
      simp only [List.get_eq_getElem]
      simp [heq]
    rw [ha] at hget
    simp [List.dropWhile_cons, hget]

theorem trimStr_idem (s : Str) : trimStr (trimStr s) = trimStr s := by
  unfold trimStr
  rw [dropTrailingWs_eq_rdropWhile, dropTrailingWs_eq_rdropWhile,
    dropWhile_rdropWhile_stable, List.rdropWhile_idempotent]

theorem toLowerStr_nil : toLowerStr [] = [] := rfl

theorem buildLookup_wf (models : List (Str × ProviderModelConfig)) :
    ∀ k v, (k, v) ∈ buildModelAliasLookup models →
      k ≠ [] ∧ v ≠ [] ∧ trimStr v = v ∧ k ≠ toLowerStr v := by
  have hstep : ∀ (ms : List (Str × ProviderModelConfig)) (acc : List (Str × Str)),
      (∀ k v, (k, v) ∈ acc → k ≠ [] ∧ v ≠ [] ∧ trimStr v = v ∧ k ≠ toLowerStr v) →
      ∀ k v, (k, v) ∈ ms.foldl
          (fun acc nm =>
            let name := trimStr nm.1
            if name = [] then acc
            else
              let aliasRaw := match nm.2.modelAlias with
                | some a => trimStr a
                | none => []
              if aliasRaw = [] then acc
              else
                let na := toLowerStr aliasRaw
                if na = [] ∨ na = toLowerStr name then acc
                else setAssoc acc na name)
          acc →
        k ≠ [] ∧ v ≠ [] ∧ trimStr v = v ∧ k ≠ toLowerStr v := by
    intro ms
    induction ms with
    | nil => intro acc hacc k v hm; exact hacc k v (by simpa using hm)
    | cons nm rest ih =>
      intro acc hacc k v hm
      rw [List.foldl_cons] at hm
      refine ih _ ?_ k v hm
      intro k2 v2 hm2
      by_cases h1 : trimStr nm.1 = []
      · simp only [h1, if_pos rfl] at hm2
        exact hacc k2 v2 hm2
      · simp only [if_neg h1] at hm2
        by_cases h2 : (match nm.2.modelAlias with
            | some a => trimStr a
            | none => []) = []
        · rw [if_pos h2] at hm2
          exact hacc k2 v2 hm2
        · rw [if_neg h2] at hm2
          by_cases h3 : toLowerStr (match nm.2.modelAlias with
              | some a => trimStr a
              | none => []) = [] ∨
              toLowerStr (match nm.2.modelAlias with
                | some a => trimStr a
                | none => []) = toLowerStr (trimStr nm.1)
          · rw [if_pos h3] at hm2
            exact hacc k2 v2 hm2
          · rw [if_neg h3] at hm2
            rcases mem_setAssoc hm2 with h | h
            · exact hacc k2 v2 h
            · push_neg at h3
              rw [Prod.mk.injEq] at h
              obtain ⟨hk2, hv2⟩ := h
              refine ⟨?_, ?_, ?_, ?_⟩
              · rw [hk2]; exact h3.1
              · rw [hv2]; exact h1
              · rw [hv2]; exact trimStr_idem nm.1
              · rw [hk2, hv2]; exact h3.2
  exact hstep models [] (by intro k v h; simp at h)

theorem stripProps_snd_true : ∀ (strips : List Str) (o : JObj),
    (stripProps o strips true).2 = true := by
  intro strips
  induction strips with
  | nil => intro o; rfl
  | cons s rest ih =>
    intro o
    by_cases h1 : s = []
    · simp only [stripProps, if_pos h1]; exact ih o
    · by_cases h2 : hasOwn o s = true
      · simp only [stripProps, if_neg h1, h2, if_true]; exact ih _
      · simp only [stripProps, if_neg h1, h2, Bool.false_eq_true, if_false]; exact ih o

theorem stripProps_objGet (k : Str) : ∀ (strips : List Str) (o : JObj) (u : Bool),
    (∀ s ∈ strips, s ≠ k) →
    objGet (stripProps o strips u).1 k = objGet o k := by
  intro strips
  induction strips with
  | nil => intro o u _; rfl
  | cons s rest ih =>
    intro o u h
    have hrest : ∀ x ∈ rest, x ≠ k := fun x hx => h x (List.mem_cons_of_mem _ hx)
    by_cases h1 : s = []
    · simp only [stripProps, if_pos h1]; exact ih o u hrest
    · by_cases h2 : hasOwn o s = true
      · simp only [stripProps, if_neg h1, h2, if_true]
        rw [ih _ _ hrest]
        exact objGet_objDelete_other o s k (h s (List.mem_cons_self s rest)).symm ▸
          objGet_objDelete_other o s k (by intro hkk; exact (h s (List.mem_cons_self s rest)) hkk.symm)
      · simp only [stripProps, if_neg h1, h2, Bool.false_eq_true, if_false]
        exact ih o u hrest

theorem streamStep_objGet_model (op : JObj × Bool) (p : ProviderConfig) (pathname : Str) :
    objGet (streamStep op p pathname).1 modelKey = objGet op.1 modelKey := by
  have hms : modelKey ≠ streamKey := by decide
  have hmo : modelKey ≠ streamOptionsKey := by decide
  by_cases hc : (p.disableStreaming &&
      chatCompletionsSuffix.isSuffixOf (toLowerStr pathname)) = true
  · by_cases h1 : jsNeqFalse (objGet op.1 streamKey) = true
    · by_cases h2 : hasOwn (objSet op.1 streamKey (Json.bool false)) streamOptionsKey = true
      · simp only [streamStep, hc, if_true, h1, h2]
        rw [objGet_objDelete_other _ _ _ hmo, objGet_objSet_other _ _ _ _ hms]
      · simp only [streamStep, hc, if_true, h1, h2, Bool.false_eq_true, if_false]
        rw [objGet_objSet_other _ _ _ _ hms]
    · by_cases h2 : hasOwn op.1 streamOptionsKey = true
      · simp only [streamStep, hc, if_true, h1, Bool.false_eq_true, if_false, h2]
        rw [objGet_objDelete_other _ _ _ hmo]
      · simp only [streamStep, hc, if_true, h1, h2, Bool.false_eq_true, if_false]
  · simp only [streamStep, hc, Bool.false_eq_true, if_false]

theorem streamStep_snd_true (op : JObj × Bool) (p : ProviderConfig) (pathname : Str)
    (h : op.2 = true) : (streamStep op p pathname).2 = true := by
  by_cases hc : (p.disableStreaming &&
      chatCompletionsSuffix.isSuffixOf (toLowerStr pathname)) = true
  · by_cases h1 : jsNeqFalse (objGet op.1 streamKey) = true
    · by_cases h2 : hasOwn (objSet op.1 streamKey (Json.bool false)) streamOptionsKey = true
      · simp only [streamStep, hc, if_true, h1, h2]
      · simp only [streamStep, hc, if_true, h1, h2, Bool.false_eq_true, if_false]
    · by_cases h2 : hasOwn op.1 streamOptionsKey = true
      · simp only [streamStep, hc, if_true, h1, Bool.false_eq_true, if_false, h2]
      · simp only [streamStep, hc, if_true, h1, h2, Bool.false_eq_true, if_false]
        exact h
  · simp only [streamStep, hc, Bool.false_eq_true, if_false]
    exact h

/-- C6 (amended): for a non-empty JSON object body handled by a provider whose
modelAliasLookup is the one the configuration loader builds, if the base model
(the trimmed model field if present, else the default), lowercased, maps to a
canonical name C, and none of the strip properties is named model, then the
body is mutated, the forwarded body is the re-serialized post-alias object,
that object's model field equals C, and the token-count payload is that same
re-serialized body.  (The claim as frozen omits the strip condition; a strip
property named model removes the field from the forwarded body.) -/
theorem c6_model_alias_roundtrip (rawBody : Str) (parsedBody : Option JObj)
    (ob : JObj) (p : ProviderConfig) (pathname : Str) (C : Str)
    (hraw : rawBody ≠ [])
    (hob : parsedBody = some ob)
    (hlookup : p.modelAliasLookup = buildModelAliasLookup p.models)
    (halias : lookupAssoc p.modelAliasLookup (toLowerStr (baseModelOf ob p)) = some C)
    (hstrip : ∀ s ∈ p.stripRequestProperties, s ≠ modelKey) :
    ∃ o2, prepareRequestBody rawBody true parsedBody p pathname =
        ⟨stringifyObj o2, some (stringifyObj o2), some C, true⟩ ∧
      objGet o2 modelKey = some (Json.str C) := by
  have hmem : (toLowerStr (baseModelOf ob p), C) ∈ p.modelAliasLookup :=
    lookupAssoc_mem halias
  rw [hlookup] at hmem
  obtain ⟨hk, hC, htrim, hkne⟩ := buildLookup_wf p.models _ _ hmem
  have hbase : baseModelOf ob p ≠ [] := by
    intro h
    exact hk (by rw [h]; rfl)
  have hres : resolveModelFor ob p = C := by
    unfold resolveModelFor
    simp only [hbase, if_neg hbase, halias]
    simp [hC]
  have hneq : jsEqStr (objGet ob modelKey) C = false := by
    cases hj : objGet ob modelKey with
    | none => simp [jsEqStr]
    | some j =>
      cases j with
      | str m =>
        simp only [jsEqStr, decide_eq_false_iff_not]
        intro hmC
        subst hmC
        have hbv : baseModelOf ob p = m := by
          unfold baseModelOf
          rw [hj]
          simp [htrim, hC]
        exact hkne (by rw [hbv])
      | null => simp [jsEqStr]
      | bool b => simp [jsEqStr]
      | num n => simp [jsEqStr]
      | arr xs => simp [jsEqStr]
      | obj fs => simp [jsEqStr]
  have hstep2 : modelStep ob p = (objSet ob modelKey (Json.str C), true) := by
    unfold modelStep
    rw [hres]
    simp [hC, hneq]
  have hm1 : objGet (objSet ob modelKey (Json.str C)) modelKey = some (Json.str C) :=
    objGet_objSet_same ob modelKey (Json.str C)
  have hs3g : objGet (streamStep (objSet ob modelKey (Json.str C), true) p pathname).1
      modelKey = some (Json.str C) := by
    rw [streamStep_objGet_model]
    exact hm1
  have hs3t : (streamStep (objSet ob modelKey (Json.str C), true) p pathname).2 = true :=
    streamStep_snd_true _ p pathname rfl
  have hst : transformSteps ob p pathname =
      stripProps (streamStep (objSet ob modelKey (Json.str C), true) p pathname).1
        p.stripRequestProperties
        (streamStep (objSet ob modelKey (Json.str C), true) p pathname).2 := by
    unfold transformSteps
    rw [hstep2]
  have h4g : objGet (transformSteps ob p pathname).1 modelKey = some (Json.str C) := by
    rw [hst, stripProps_objGet modelKey _ _ _ hstrip]
    exact hs3g
  have h4t : (transformSteps ob p pathname).2 = true := by
    rw [hst, hs3t]
    exact stripProps_snd_true _ _
  refine ⟨(transformSteps ob p pathname).1, ?_, h4g⟩
  unfold prepareRequestBody
  rw [hob]
  simp [hraw, h4t, hres, hC, stringifyObj]

/-- Counterexample to C6 as frozen: the provider strips the model property, so
although the body's model is an alias mapping to canonical-y, the forwarded
body is the serialized empty object — it has no model field at all. -/
theorem c6_counterexample :
    c6Provider.modelAliasLookup = buildModelAliasLookup c6Provider.models ∧
    lookupAssoc c6Provider.modelAliasLookup (toLowerStr (baseModelOf c6Obj c6Provider)) =
      some ("canonical-y".toList) ∧
    (prepareRequestBody ("x".toList) true (some c6Obj) c6Provider
        ("/p/v1".toList)).forwardBody = stringifyObj [] ∧
    objGet ([] : JObj) modelKey = none :=
  ⟨rfl, rfl, rfl, rfl⟩

/-- Witness for C6 (amended): without a model strip, the alias body is
forwarded re-serialized with model canonical-y. -/
theorem c6_model_alias_roundtrip_witness :
    (prepareRequestBody ("x".toList) true (some c6Obj) c6wProvider
        ("/p/v1".toList)).resolvedModel = some ("canonical-y".toList) ∧
    (prepareRequestBody ("x".toList) true (some c6Obj) c6wProvider
        ("/p/v1".toList)).bodyWasMutated = true := by
  obtain ⟨o2, heq, hget⟩ :=
    c6_model_alias_roundtrip ("x".toList) (some c6Obj) c6Obj c6wProvider
      ("/p/v1".toList) ("canonical-y".toList) (by decide) rfl rfl rfl
      (by intro s hs; simp [c6wProvider] at hs; rw [hs]; decide)
  rw [heq]
  exact ⟨rfl, rfl⟩

/-! ## Claim C2: longest-prefix provider routing -/

/-- C2 (amended): a returned provider is in the map, matches the path under
the spec's case-insensitive boundary-respecting prefix test, and has maximal
routePrefix length among matching providers with a non-empty routePrefix; a
none result means no provider with a non-empty routePrefix matches, and the
caller answers 404.  (The claim as frozen quantifies over every provider map;
the loop skips providers whose routePrefix is empty even when they would
match, so the frozen form fails on such maps.) -/
theorem c2_resolveProvider_longest (providers : List (Str × ProviderConfig))
    (pathname : Str) :
    (∀ name p, resolveProvider providers pathname = some (name, p) →
      (name, p) ∈ providers ∧ p.routePfx ≠ [] ∧ specMatches pathname p ∧
      ∀ n2 p2, (n2, p2) ∈ providers → p2.routePfx ≠ [] → specMatches pathname p2 →
        p2.routePfx.length ≤ p.routePfx.length) ∧
    (resolveProvider providers pathname = none →
      ∀ n2 p2, (n2, p2) ∈ providers → p2.routePfx ≠ [] →
        ¬ specMatches pathname p2) := by
  obtain ⟨hs, hn0, hn⟩ := resolveLoop_spec pathname providers 0 none
    (by intro na pa h; simp at h) (fun _ => rfl)
  constructor
  · intro name p hr
    obtain ⟨hmem, hg, _, hmax⟩ := hs name p hr
    have hmem2 : (name, p) ∈ providers := by
      rcases hmem with h | h
      · exact h
      · simp at h
    refine ⟨hmem2, hg.1, (startsWithRoutePfx_iff pathname p).mp hg.2, ?_⟩
    intro n2 p2 hm hne hsm
    exact hmax n2 p2 hm ⟨hne, (startsWithRoutePfx_iff pathname p2).mpr hsm⟩
  · intro hr n2 p2 hm hne hsm
    exact hn hr n2 p2 hm ⟨hne, (startsWithRoutePfx_iff pathname p2).mpr hsm⟩

/-- Counterexample to C2 as frozen: a provider with an empty routePrefix
matches the path /x under the claim's own match condition (the empty prefix is
a prefix and is followed by a slash), yet resolveProvider returns none instead
of that sole matching provider. -/
theorem c2_counterexample :
    specMatches ("/x".toList) c2EmptyProvider ∧
    resolveProvider [("p".toList, c2EmptyProvider)] ("/x".toList) = none := by
  constructor
  · exact ⟨by decide, Or.inr (by decide)⟩
  · rfl

/-- Witness for C2 (amended): of two nested prefixes both matching
/v1/chat/completions, the longer one is selected. -/
theorem c2_resolveProvider_longest_witness :
    ("b".toList, c2ProvB) ∈ c2Provs ∧
    specMatches ("/v1/chat/completions".toList) c2ProvB :=
  have h := (c2_resolveProvider_longest c2Provs ("/v1/chat/completions".toList)).1
    ("b".toList) c2ProvB (by rfl)
  ⟨h.1, h.2.2.1⟩

/-! ## Claim C7: response telemetry headers -/

theorem lookupAssoc_filterNe_append (l : List (Str × Str)) (k v : Str) :
    lookupAssoc (l.filter (fun kv => kv.1 ≠ k) ++ [(k, v)]) k = some v := by
  induction l with
  | nil => simp [lookupAssoc]
  | cons kv rest ih =>
    obtain ⟨k1, v1⟩ := kv
    rw [List.filter_cons]
    by_cases hk : k1 = k
    · rw [if_neg (by simp [hk])]
      exact ih
    · rw [if_pos (by simp [hk]), List.cons_append]
      show (if k1 = k then some v1 else
        lookupAssoc (rest.filter (fun kv => kv.1 ≠ k) ++ [(k, v)]) k) = some v
      rw [if_neg hk]
      exact ih

theorem lookupAssoc_filterNe_append_other (l : List (Str × Str)) (k k2 v : Str)
    (h : k2 ≠ k) :
    lookupAssoc (l.filter (fun kv => kv.1 ≠ k) ++ [(k, v)]) k2 = lookupAssoc l k2 := by
  induction l with
  | nil =>
    show (if k = k2 then some v else lookupAssoc [] k2) = lookupAssoc [] k2
    rw [if_neg (fun hc => h hc.symm)]
  | cons kv rest ih =>
    obtain ⟨k1, v1⟩ := kv
    rw [List.filter_cons]
    by_cases hk : k1 = k
    · rw [if_neg (by simp [hk])]
      rw [ih]
      show lookupAssoc rest k2 = if k1 = k2 then some v1 else lookupAssoc rest k2
      rw [if_neg (by rw [hk]; exact fun hc => h hc.symm)]
    · rw [if_pos (by simp [hk]), List.cons_append]
      show (if k1 = k2 then some v1 else
          lookupAssoc (rest.filter (fun kv => kv.1 ≠ k) ++ [(k, v)]) k2) =
        if k1 = k2 then some v1 else lookupAssoc rest k2
      by_cases hk2 : k1 = k2
      · rw [if_pos hk2, if_pos hk2]
      · rw [if_neg hk2, if_neg hk2]
        exact ih

theorem headersGet_set_same (hs : List (Str × Str)) (k v : Str) :
    headersGet (headersSet hs k v) k = some v :=
  lookupAssoc_filterNe_append hs (toLowerStr k) v

theorem headersGet_set_other (hs : List (Str × Str)) (k k2 v : Str)
    (h : toLowerStr k2 ≠ toLowerStr k) :
    headersGet (headersSet hs k v) k2 = headersGet hs k2 :=
  lookupAssoc_filterNe_append_other hs (toLowerStr k) (toLowerStr k2) v h

theorem tlc_usedHeaderKey : toLowerStr usedHeaderKey = usedHeaderKey := by decide

theorem tlc_availHeaderKey : toLowerStr availHeaderKey = availHeaderKey := by decide

theorem usedKey_ne_availKey : toLowerStr usedHeaderKey ≠ toLowerStr availHeaderKey := by
  decide

theorem setTokenLimitHeaders_get_used (hs : List (Str × Str)) (s : TokenLimitSnapshot) :
    headersGet (setTokenLimitHeaders hs (some s)) usedHeaderKey = some (intToStr s.used) := by
  unfold setTokenLimitHeaders
  rw [headersGet_set_other _ _ _ _ usedKey_ne_availKey, headersGet_set_same]

theorem setTokenLimitHeaders_get_avail (hs : List (Str × Str)) (s : TokenLimitSnapshot) :
    headersGet (setTokenLimitHeaders hs (some s)) availHeaderKey =
      some (intToStr s.available) := by
  unfold setTokenLimitHeaders
  rw [headersGet_set_same]

theorem sendOnce_respHeaders (cfg : ProxyConfig) (req : RequestModel) (o : Oracles)
    (baseHeaders : List (Str × Str)) (originalAuth : Option Str)
    (snap : Option TokenLimitSnapshot) (forwardBody : Str)
    (cache : List (Str × TokenCacheEntry)) (attemptIdx : Nat) (forceRefresh : Bool) :
    (sendOnce cfg req o baseHeaders originalAuth snap forwardBody cache attemptIdx
      forceRefresh).respHeaders =
      withTokenLimitHeadersH (o.upstreamHeaders attemptIdx) snap := rfl

theorem dispatchStep_respHeaders (cfg : ProxyConfig) (req : RequestModel) (o : Oracles)
    (pm : Str × ProviderConfig)
    (adm : List (Str × Bucket) × Option TokenLimitSnapshot × Bool)
    (cache : List (Str × TokenCacheEntry)) :
    (dispatchStep cfg req o pm adm cache).responseHeaders =
      withTokenLimitHeadersH (o.upstreamHeaders 0) adm.2.1 ∨
    (dispatchStep cfg req o pm adm cache).responseHeaders =
      withTokenLimitHeadersH (o.upstreamHeaders 1) adm.2.1 := by
  have hgen : ∀ (url : Str) (bh : List (Str × Str)) (oa : Option Str) (fwd : Str)
      (s0 : SendOutcome),
      s0.respHeaders = withTokenLimitHeadersH (o.upstreamHeaders 0) adm.2.1 →
      (dispatchFinish cfg req o adm url bh oa fwd s0).responseHeaders =
        withTokenLimitHeadersH (o.upstreamHeaders 0) adm.2.1 ∨
      (dispatchFinish cfg req o adm url bh oa fwd s0).responseHeaders =
        withTokenLimitHeadersH (o.upstreamHeaders 1) adm.2.1 := by
    intro url bh oa fwd s0 h0
    unfold dispatchFinish
    by_cases h1 : ¬ (cfg.convertToken = true ∧ authOkOf req = true)
    · left; rw [if_pos h1]; exact h0
    · rw [if_neg h1]
      by_cases h2 : s0.status ≠ 401 ∧ s0.status ≠ 403
      · left; rw [if_pos h2]; exact h0
      · right; rw [if_neg h2]
        exact sendOnce_respHeaders cfg req o bh oa adm.2.1 fwd s0.cache 1 true
  exact hgen _ _ _ _ _ (sendOnce_respHeaders cfg req o _ _ adm.2.1 _ cache 0 false)

/-- Inversion of admissionStep under a positive limit: the snapshot field is
exactly the usage snapshot of the post-wait bucket map. -/
theorem admissionStep_pos_snap (req : RequestModel) (buckets : List (Str × Bucket))
    (o : Oracles) (pm : Str × ProviderConfig)
    (adm : List (Str × Bucket) × Option TokenLimitSnapshot × Bool)
    (hadm : admissionStep req buckets o pm = some adm)
    (hlim : 0 < pm.2.tokenLimitPerMinute) :
    ∃ b1, adm.1 = (getUsageSnapshot b1 pm.1 o.snapNow).1 ∧
      adm.2.1 = some ((getUsageSnapshot b1 pm.1 o.snapNow).2) := by
  unfold admissionStep at hadm
  rw [if_pos hlim] at hadm
  cases haw : admissionWait req buckets o pm with
  | none => rw [haw] at hadm; simp at hadm
  | some br =>
    rw [haw] at hadm
    simp only at hadm
    refine ⟨br.1, ?_, ?_⟩
    · rw [← Option.some_inj.mp hadm]
    · rw [← Option.some_inj.mp hadm]

/-- Inversion of admissionStep under a non-positive limit. -/
theorem admissionStep_nonpos (req : RequestModel) (buckets : List (Str × Bucket))
    (o : Oracles) (pm : Str × ProviderConfig)
    (adm : List (Str × Bucket) × Option TokenLimitSnapshot × Bool)
    (hadm : admissionStep req buckets o pm = some adm)
    (hlim : ¬ 0 < pm.2.tokenLimitPerMinute) :
    adm = (buckets, none, false) := by
  unfold admissionStep at hadm
  rw [if_neg hlim] at hadm
  exact (Option.some_inj.mp hadm).symm

theorem getUsageSnapshot_nonneg (bs : List (Str × Bucket)) (key : Str) (now : Int) :
    0 ≤ (getUsageSnapshot bs key now).2.used ∧
    0 ≤ (getUsageSnapshot bs key now).2.available := by
  unfold getUsageSnapshot
  rcases hl : lookupAssoc bs (toLowerStr key) with _ | b0
  · simp [hl]
  · simp only [hl]
    exact ⟨le_max_left 0 _, le_max_left 0 _⟩

/-- C7: the two telemetry headers are on the response exactly when the matched
provider's limit is positive: the positive case carries the snapshot's used
and available values, both non-negative integers, and the non-positive case
returns an upstream response's headers untouched.  The final conjunct states,
against the spec-modelled usageSnapshot, that the reported values reflect the
trailing-60-second usage window at the snapshot time: used is the clamped sum
of the samples retained by the prune, all of which lie within the window, and
available is the clamped capacity headroom. -/
theorem c7_response_telemetry (cfg : ProxyConfig) (req : RequestModel)
    (buckets : List (Str × Bucket)) (cache : List (Str × TokenCacheEntry))
    (o : Oracles) (pm : Str × ProviderConfig)
    (adm : List (Str × Bucket) × Option TokenLimitSnapshot × Bool)
    (hres : resolveProvider cfg.providers req.pathname = some pm)
    (hadm : admissionStep req buckets o pm = some adm) :
    ∃ r, handleRequest cfg req buckets cache o = some r ∧
      (0 < pm.2.tokenLimitPerMinute →
        ∃ s, adm.2.1 = some s ∧
          headersGet r.responseHeaders usedHeaderKey = some (intToStr s.used) ∧
          headersGet r.responseHeaders availHeaderKey = some (intToStr s.available) ∧
          0 ≤ s.used ∧ 0 ≤ s.available) ∧
      (¬ 0 < pm.2.tokenLimitPerMinute →
        adm.2.1 = none ∧
        (r.responseHeaders = o.upstreamHeaders 0 ∨
          r.responseHeaders = o.upstreamHeaders 1)) ∧
      (∀ (bs : List (Str × Bucket)) (key : Str) (now : Int) (bkt : Bucket),
        lookupAssoc bs (toLowerStr key) = some bkt →
        bkt.usedInWindow = sumTokens bkt.usageWindow →
        (∀ smp ∈ bkt.usageWindow, 0 < smp.tokens) →
        List.Pairwise (fun a c => a.atUnixMs ≤ c.atUnixMs) bkt.usageWindow →
        (getUsageSnapshot bs key now).2.used =
          max 0 (sumTokens (pruneUsageWindow bkt now).usageWindow) ∧
        (∀ smp ∈ (pruneUsageWindow bkt now).usageWindow, now - 60000 ≤ smp.atUnixMs) ∧
        (getUsageSnapshot bs key now).2.available =
          max 0 (bkt.capacity - (getUsageSnapshot bs key now).2.used)) := by
  refine ⟨dispatchStep cfg req o pm adm cache, ?_, ?_, ?_, ?_⟩
  · unfold handleRequest
    rw [hres]
    simp [hadm]
  · intro hlim
    obtain ⟨b1, _, hsnap⟩ := admissionStep_pos_snap req buckets o pm adm hadm hlim
    refine ⟨(getUsageSnapshot b1 pm.1 o.snapNow).2, hsnap, ?_, ?_, ?_, ?_⟩
    · rcases dispatchStep_respHeaders cfg req o pm adm cache with h | h <;>
        rw [h, hsnap] <;>
        exact setTokenLimitHeaders_get_used _ _
    · rcases dispatchStep_respHeaders cfg req o pm adm cache with h | h <;>
        rw [h, hsnap] <;>
        exact setTokenLimitHeaders_get_avail _ _
    · exact (getUsageSnapshot_nonneg b1 pm.1 o.snapNow).1
    · exact (getUsageSnapshot_nonneg b1 pm.1 o.snapNow).2
  · intro hlim
    have := admissionStep_nonpos req buckets o pm adm hadm hlim
    rw [this]
    refine ⟨rfl, ?_⟩
    rcases dispatchStep_respHeaders cfg req o pm adm cache with h | h <;> rw [this] at h
    · left
      rw [h]
      rfl
    · right
      rw [h]
      rfl
  · intro bs key now bkt hlook hsum hpos hsorted
    obtain ⟨hps, hpw, _⟩ := pruneUsageWindow_spec bkt now hsum hpos hsorted
    have hsnapeq : getUsageSnapshot bs key now =
        (setAssoc bs (toLowerStr key) (pruneUsageWindow bkt now),
          ⟨max 0 (pruneUsageWindow bkt now).usedInWindow,
            max 0 ((pruneUsageWindow bkt now).capacity -
              max 0 (pruneUsageWindow bkt now).usedInWindow)⟩) := by
      unfold getUsageSnapshot
      simp only [hlook]
    have hcap : (pruneUsageWindow bkt now).capacity = bkt.capacity := rfl
    rw [hsnapeq]
    refine ⟨?_, hpw, ?_⟩
    · simp only []
      rw [hps]
    · simp only []
      rw [hcap]

/-- Witness for C7: a provider with limit 5 and an idle limiter reports used 0
and available 0 (no bucket yet) on the response. -/
theorem c7_response_telemetry_witness :
    (handleRequest c7Cfg c7Req [] [] c7Orc).map
        (fun r => headersGet r.responseHeaders usedHeaderKey) =
      some (some (intToStr 0)) ∧
    (handleRequest c7Cfg c7Req [] [] c7Orc).map
        (fun r => headersGet r.responseHeaders availHeaderKey) =
      some (some (intToStr 0)) := by
  obtain ⟨r, hr, hpos, _, _⟩ := c7_response_telemetry c7Cfg c7Req [] [] c7Orc
    ("pr".toList, c7Provider) ([], some ⟨0, 0⟩, false) rfl rfl
  obtain ⟨s, hs, hu, ha, _, _⟩ := hpos (by decide)
  have hs0 : s = ⟨0, 0⟩ := (Option.some.inj hs).symm
  rw [hr]
  constructor
  · simp only [Option.map_some']
    rw [hu, hs0]
  · simp only [Option.map_some']
    rw [ha, hs0]

/-! ## Claim C9: telemetry headers on the outbound upstream request -/

theorem dispatchFinish_outbound (cfg : ProxyConfig) (req : RequestModel) (o : Oracles)
    (adm : List (Str × Bucket) × Option TokenLimitSnapshot × Bool)
    (url : Str) (bh : List (Str × Str)) (oa : Option Str) (fwd : Str)
    (s0 : SendOutcome)
    (h0 : ∃ base, s0.outHeaders = setTokenLimitHeaders base adm.2.1) :
    ∀ hs2 ∈ (dispatchFinish cfg req o adm url bh oa fwd s0).outboundHeaders,
      ∃ base, hs2 = setTokenLimitHeaders base adm.2.1 := by
  intro hs2 hmem
  unfold dispatchFinish at hmem
  by_cases h1 : ¬ (cfg.convertToken = true ∧ authOkOf req = true)
  · rw [if_pos h1] at hmem
    simp only [List.mem_singleton] at hmem
    rw [hmem]
    exact h0
  · rw [if_neg h1] at hmem
    by_cases h2 : s0.status ≠ 401 ∧ s0.status ≠ 403
    · rw [if_pos h2] at hmem
      simp only [List.mem_singleton] at hmem
      rw [hmem]
      exact h0
    · rw [if_neg h2] at hmem
      simp only [List.mem_cons, List.mem_singleton] at hmem
      rcases hmem with hmem | hmem | hmem
      · rw [hmem]; exact h0
      · rw [hmem]
        exact ⟨_, rfl⟩
      · simp at hmem

/-- C9: for a matched provider with a positive limit, every outbound upstream
request of the dispatch (the first attempt and the retry alike) carries the
two telemetry headers with the admission-time snapshot values, because
setTokenLimitHeaders is applied to the forwarded header set before the
upstream call. -/
theorem c9_outbound_telemetry (cfg : ProxyConfig) (req : RequestModel)
    (buckets : List (Str × Bucket)) (cache : List (Str × TokenCacheEntry))
    (o : Oracles) (pm : Str × ProviderConfig)
    (adm : List (Str × Bucket) × Option TokenLimitSnapshot × Bool)
    (hres : resolveProvider cfg.providers req.pathname = some pm)
    (hadm : admissionStep req buckets o pm = some adm)
    (hlim : 0 < pm.2.tokenLimitPerMinute) :
    ∃ r s, handleRequest cfg req buckets cache o = some r ∧ adm.2.1 = some s ∧
      ∀ hs2 ∈ r.outboundHeaders,
        headersGet hs2 usedHeaderKey = some (intToStr s.used) ∧
        headersGet hs2 availHeaderKey = some (intToStr s.available) := by
  obtain ⟨b1, _, hsnap⟩ := admissionStep_pos_snap req buckets o pm adm hadm hlim
  refine ⟨dispatchStep cfg req o pm adm cache, (getUsageSnapshot b1 pm.1 o.snapNow).2,
    ?_, hsnap, ?_⟩
  · unfold handleRequest
    rw [hres]
    simp [hadm]
  · intro hs2 hmem
    have hmem2 : hs2 ∈ (dispatchFinish cfg req o adm
        (buildUpstreamUrl o.urlPathnameOf o.urlRender
          (replaceModelTemplate pm.2.upstreamTemplate
            (match (prepareRequestBody req.rawBody req.contentTypeIncludesJson
                req.parsedBody pm.2 req.pathname).resolvedModel with
              | some m => m
              | none => pm.2.defaultModel))
          req.pathname pm.2.routePfx req.search)
        (baseHeadersOf req (prepareRequestBody req.rawBody req.contentTypeIncludesJson
          req.parsedBody pm.2 req.pathname))
        (headersGet req.headers authHeaderKey)
        (prepareRequestBody req.rawBody req.contentTypeIncludesJson req.parsedBody pm.2
          req.pathname).forwardBody
        (sendOnce cfg req o
          (baseHeadersOf req (prepareRequestBody req.rawBody req.contentTypeIncludesJson
            req.parsedBody pm.2 req.pathname))
          (headersGet req.headers authHeaderKey) adm.2.1
          (prepareRequestBody req.rawBody req.contentTypeIncludesJson req.parsedBody pm.2
            req.pathname).forwardBody cache 0 false)).outboundHeaders := hmem
    obtain ⟨base, hb⟩ := dispatchFinish_outbound cfg req o adm _ _ _ _ _ ⟨_, rfl⟩ hs2 hmem2
    rw [hb, hsnap]
    exact ⟨setTokenLimitHeaders_get_used _ _, setTokenLimitHeaders_get_avail _ _⟩

/-- Witness for C9: the single outbound request of the idle-limiter setup
carries the used header with value 0. -/
theorem c9_outbound_telemetry_witness :
    (handleRequest c7Cfg c7Req [] [] c7Orc).map
        (fun r => r.outboundHeaders.all
          (fun hs2 => decide (headersGet hs2 usedHeaderKey = some (intToStr 0)))) =
      some true := by
  obtain ⟨r, s, hr, hsnap, hall⟩ := c9_outbound_telemetry c7Cfg c7Req [] [] c7Orc
    ("pr".toList, c7Provider) ([], some ⟨0, 0⟩, false) rfl rfl (by decide)
  have hs0 : s = ⟨0, 0⟩ := (Option.some.inj hsnap).symm
  rw [hr]
  simp only [Option.map_some']
  refine congrArg some (List.all_eq_true.mpr ?_)
  intro hs2 hmem
  rw [decide_eq_true_iff, (hall hs2 hmem).1, hs0]

/-! ## Claim C10: the rateLimitEnabled flag is dead on the request path -/

/-- C10: two configurations differing only in rateLimitEnabled handle every
request identically — the flag is never read on the request path — and
whether the rate-limiter wait runs depends only on the matched provider's
limit being positive together with a truthy token-count payload. -/
theorem c10_rate_limit_flag_unread (cfg : ProxyConfig) (rl1 rl2 : Bool)
    (req : RequestModel) (buckets : List (Str × Bucket))
    (cache : List (Str × TokenCacheEntry)) (o : Oracles) :
    handleRequest { cfg with rateLimitEnabled := rl1 } req buckets cache o =
      handleRequest { cfg with rateLimitEnabled := rl2 } req buckets cache o ∧
    (∀ pm adm, resolveProvider cfg.providers req.pathname = some pm →
      admissionStep req buckets o pm = some adm →
      (adm.2.2 = true ↔ 0 < pm.2.tokenLimitPerMinute ∧
        ∃ payload, (prepareRequestBody req.rawBody req.contentTypeIncludesJson
          req.parsedBody pm.2 req.pathname).payloadForTokenCount = some payload ∧
          payload ≠ [])) := by
  constructor
  · cases cfg
    rfl
  · intro pm adm hres hadm
    by_cases hlim : 0 < pm.2.tokenLimitPerMinute
    · unfold admissionStep at hadm
      rw [if_pos hlim] at hadm
      cases haw : admissionWait req buckets o pm with
      | none => rw [haw] at hadm; simp at hadm
      | some br =>
        rw [haw] at hadm
        simp only at hadm
        have hadm2 : adm = ((getUsageSnapshot br.1 pm.1 o.snapNow).1,
            some (getUsageSnapshot br.1 pm.1 o.snapNow).2, br.2) :=
          (Option.some_inj.mp hadm).symm
        have hb : adm.2.2 = br.2 := by rw [hadm2]
        unfold admissionWait at haw
        cases hp : (prepareRequestBody req.rawBody req.contentTypeIncludesJson
            req.parsedBody pm.2 req.pathname).payloadForTokenCount with
        | none =>
          simp only [hp] at haw
          have hbr : br = (buckets, false) := (Option.some_inj.mp haw).symm
          rw [hb, hbr]
          simp [hp]
        | some payload =>
          simp only [hp] at haw
          by_cases hpe : payload = []
          · rw [if_pos hpe] at haw
            have hbr : br = (buckets, false) := (Option.some_inj.mp haw).symm
            rw [hb, hbr]
            simp only [Bool.false_eq_true, false_iff]
            rintro ⟨_, p2, hp2, hne⟩
            exact hne (by rw [← Option.some.inj hp2, hpe])
          · rw [if_neg hpe] at haw
            cases hwt : waitForTokens buckets pm.1 pm.2.tokenLimitPerMinute
                (o.countTokens payload) o.createNow o.clock with
            | none => rw [hwt] at haw; simp at haw
            | some r2 =>
              rw [hwt] at haw
              simp only at haw
              have hbr : br = (r2.1, true) := (Option.some_inj.mp haw).symm
              rw [hb, hbr]
              simp only [true_iff]
              exact ⟨hlim, payload, rfl, hpe⟩
    · have hnp := admissionStep_nonpos req buckets o pm adm hadm hlim
      rw [hnp]
      simp [hlim]

/-- Witness for C10: flipping rateLimitEnabled leaves the handled request
identical, and the idle request (empty body, hence no payload) never runs the
rate-limiter wait. -/
theorem c10_rate_limit_flag_unread_witness :
    handleRequest { c7Cfg with rateLimitEnabled := true } c7Req [] [] c7Orc =
      handleRequest { c7Cfg with rateLimitEnabled := false } c7Req [] [] c7Orc ∧
    ¬ ((([] : List (Str × Bucket)), some (⟨0, 0⟩ : TokenLimitSnapshot), false).2.2 = true) := by
  have h := c10_rate_limit_flag_unread c7Cfg true false c7Req [] [] c7Orc
  refine ⟨h.1, ?_⟩
  intro hc
  obtain ⟨-, p2, hp2, -⟩ :=
    (h.2 ("pr".toList, c7Provider) ([], some ⟨0, 0⟩, false) rfl rfl).mp hc
  exact Option.noConfusion hp2

end KeplerProxy
